import Mathlib

/-!
Verification of the api-systemd deployment orchestrator (Go) against its
natural-language specification.  Every definition below is a shallow
embedding of a function of the Go sources; the file/line references in the
doc comments point into the repository.  External effects (filesystem,
D-Bus calls to systemd, process execution, HTTP) are modeled by explicit
oracles (`World`, attempt-result functions) and by effect traces.
-/

set_option maxRecDepth 4096

/-! ## Go path model: `path/filepath.Clean` and `filepath.Join` (Unix).

`filepath.Join(elem...)` joins the non-empty elements with "/" and runs
`Clean` on the result; if every element is empty it returns "".  `Clean`
is implemented here on the list of "/"-separated components: empty and
"." components are dropped, ".." pops a preceding component (or is kept
at the front of a relative path, or dropped at the root of an absolute
path). -/

namespace gopath

/-- Whether the path is absolute: Go checks `path[0] == '/'`. -/
def rooted (s : String) : Bool :=
  match s.toList with
  | c :: _ => c = '/'
  | [] => false

/-- Splitting a character list at every '/' (Go `strings.Split(s, "/")`);
`acc` holds the characters of the current piece, reversed. -/
def splitSlashAux : List Char → List Char → List String
  | [], acc => [String.mk acc.reverse]
  | c :: rest, acc =>
    if c = '/' then String.mk acc.reverse :: splitSlashAux rest []
    else splitSlashAux rest (c :: acc)

/-- Go `strings.Split(s, "/")`. -/
def splitSlash (s : String) : List String := splitSlashAux s.toList []

/-- Go `strings.Join(elems, "/")`. -/
def joinSlash : List String → String
  | [] => ""
  | [x] => x
  | x :: y :: rest => x ++ "/" ++ joinSlash (y :: rest)

/-- One step of `Clean`: push the component `c` onto the (reversed) stack
of output components.  Empty and "." components are dropped; ".." pops a
preceding real component, stays at the front of a relative path, and is
dropped at the root of an absolute path. -/
def cleanStep (r : Bool) (stack : List String) (c : String) : List String :=
  if c = "" ∨ c = "." then stack
  else if c = ".." then
    match stack with
    | [] => if r then [] else [".."]
    | a :: rest => if a = ".." then ".." :: a :: rest else rest
  else c :: stack

/-- The component stack of a path, most recent first. -/
def stackOf (r : Bool) (cs : List String) : List String :=
  cs.foldl (cleanStep r) []

/-- Resolved components of a path (in order), given its rootedness. -/
def cleanParts (r : Bool) (cs : List String) : List String :=
  (stackOf r cs).reverse

/-- `filepath.Clean` for Unix paths. -/
def clean (path : String) : String :=
  if path = "" then "."
  else
    let r := rooted path
    let out := cleanParts r (splitSlash path)
    let s := joinSlash out
    if r then "/" ++ s
    else if s = "" then "." else s

/-- `filepath.Join(elem...)` for Unix paths: the non-empty elements are
joined with "/" and the result cleaned; if every element is empty the
result is "". -/
def join (elems : List String) : String :=
  let nonempty := elems.filter (fun e => e ≠ "")
  if nonempty.isEmpty then ""
  else clean (joinSlash nonempty)

/-- A real path component: non-empty, not "." or "..", slash-free. -/
def GoodName (c : String) : Prop :=
  c ≠ "" ∧ c ≠ "." ∧ c ≠ ".." ∧ ('/' : Char) ∉ c.toList

/-- Shape invariant of reachable component stacks: real names on top of
a run of ".." entries, and no ".." at all for rooted paths. -/
def GoodStack (r : Bool) (st : List String) : Prop :=
  ∃ ns ds, st = ns ++ ds ∧ (∀ c ∈ ns, GoodName c) ∧
    (∀ c ∈ ds, c = "..") ∧ (r = true → ds = [])

/-- Binary join, `filepath.Join(a, b)`. -/
def join2 (a b : String) : String := join [a, b]

/-- Ternary join, `filepath.Join(a, b, c)`. -/
def join3 (a b c : String) : String := join [a, b, c]

end gopath

/-! ## `internal/pkg/validator/validator.go` -/

namespace validator

/-- Go `unicode.IsSpace` restricted to the ASCII whitespace characters. -/
def isSpaceGo (c : Char) : Bool :=
  c = ' ' || c = '\t' || c = '\n' || c = '\r' || c = '\x0b' || c = '\x0c'

/-- Go `strings.TrimSpace`. -/
def trimSpace (s : String) : String :=
  String.mk (((s.toList.dropWhile isSpaceGo).reverse.dropWhile isSpaceGo).reverse)

/-- Character class of the service-name regular expression
`[a-zA-Z0-9_-]` (validator.go line 25). -/
def validChar (c : Char) : Bool :=
  (('a' ≤ c && c ≤ 'z') || ('A' ≤ c && c ≤ 'Z') ||
   ('0' ≤ c && c ≤ '9') || c = '_' || c = '-')

/-- `validator.ValidateServiceName` (validator.go lines 19-31): empty
(after trimming) names are rejected, then the name must fully match
`[a-zA-Z0-9_-]+`. -/
def ValidateServiceName (serviceName : String) : Except String Unit :=
  if trimSpace serviceName = "" then .error "service name cannot be empty"
  else if serviceName.toList.all validChar ∧ serviceName ≠ "" then .ok ()
  else .error "service name contains invalid characters"

end validator

/-! ## `internal/pkg/artifact/artifact.go` -/

namespace artifact

/-- Substring containment on character lists (model of Go
`strings.Contains`). -/
def listContains (pat : List Char) : List Char → Bool
  | [] => pat.isEmpty
  | c :: rest => pat.isPrefixOf (c :: rest) || listContains pat rest

/-- Go `strings.Contains s pat`. -/
def strContains (s pat : String) : Bool := listContains pat.toList s.toList

/-- Go `strings.HasPrefix s p`. -/
def strStartsWith (s p : String) : Bool := p.toList.isPrefixOf s.toList

/-- Go `strings.HasSuffix s p`, used only to state the specification
criterion "URL ends in a supported archive extension". -/
def strEndsWith (s p : String) : Bool := p.toList.isSuffixOf s.toList

/-- `Manager.ValidateURL` (artifact.go lines 114-138): rejects the empty
URL, requires an "http://" or "https://" prefix, and then accepts iff the
URL CONTAINS one of ".zip", ".tar.gz", ".tar" anywhere (the Go code uses
`strings.Contains`, not a suffix check). -/
def ValidateURL (url : String) : Except String Unit :=
  if url = "" then .error "URL cannot be empty"
  else if !(strStartsWith url "http://") && !(strStartsWith url "https://") then
    .error "URL must start with http or https"
  else if [".zip", ".tar.gz", ".tar"].any (fun f => strContains url f) then .ok ()
  else .error "unsupported file format"

/-- `Manager.GetFirstFolder` (artifact.go lines 106-111). -/
def GetFirstFolder (folders : List String) : String :=
  match folders with
  | f :: _ => f
  | [] => ""

end artifact

/-! ## `internal/pkg/hooks` : entity (part_004) and executor (config.go
second section, package hooks). -/

namespace hooks

/-- `hooks.Hook` (entity, part_004 lines 22-35).  `timeout` is kept in
nanoseconds and `retry` is the Go `int` retry count (may be negative).
Headers and payload only feed the HTTP callback body and are not needed
for the verified properties. -/
structure Hook where
  type : String
  name : String
  command : String
  script : String
  callbackURL : String
  timeout : Int
  retry : Int
  enabled : Bool
  async : Bool
deriving DecidableEq

/-- `hooks.HookEvent` (entity, part_004 lines 118-128), restricted to the
fields the orchestration logic reads.  `status` is the Go zero value ""
until an executor sets it. -/
structure HookEvent where
  serviceName : String
  hookType : String
  status : String
  error : String
deriving DecidableEq

/-- True when one of the three executor fields is populated, i.e. the
`if hook.Command != "" / hook.Script != "" / hook.CallbackURL != ""`
cascade in `ExecuteHook` (config.go lines 220-226) dispatches at all. -/
def hasExecutor (h : Hook) : Bool :=
  h.command ≠ "" || h.script ≠ "" || h.callbackURL ≠ ""

/-- Outcome of an executor invocation: `none` is success, `some e` is a
failure whose message is `e`.  The oracle maps the 0-based attempt index
to the outcome of that attempt; it abstracts `executeCommand`,
`executeScript` and `executeCallback`, which only touch the outside
world. -/
def AttemptOracle := Nat → Option String

/-- Result of the retry loop of `ExecuteHook` (config.go lines 212-231):
number of loop iterations run, seconds slept before each retry (the loop
sleeps `i` seconds before iteration `i > 0`), and the `lastErr` value
after the loop. -/
structure LoopOut where
  attempts : Nat
  sleeps : List Nat
  lastErr : Option String
deriving DecidableEq

/-- The `for i := 0; i < maxRetries; i++` loop of `ExecuteHook`:
`i` is the current index, the second argument the remaining iteration
budget.  The loop breaks on the first successful attempt. -/
def attemptLoop (res : AttemptOracle) : Nat → Nat → LoopOut
  | _, 0 => ⟨0, [], none⟩
  | i, r + 1 =>
    let s : List Nat := if i = 0 then [] else [i]
    match res i with
    | none => ⟨1, s, none⟩
    | some e =>
      if r = 0 then ⟨1, s, some e⟩
      else
        let rest := attemptLoop res (i + 1) r
        ⟨rest.attempts + 1, s ++ rest.sleeps, rest.lastErr⟩

/-- `maxRetries` of `ExecuteHook` (config.go lines 207-210):
`hook.Retry`, clamped up to 1. -/
def maxRetries (h : Hook) : Nat :=
  if h.retry ≤ 0 then 1 else h.retry.toNat

/-- Full result of one `ExecuteHook` call: the returned `HookEvent`
plus the observable retry behavior (attempt count and sleeps). -/
structure HookExecResult where
  event : HookEvent
  attempts : Nat
  sleeps : List Nat
deriving DecidableEq

/-- `HookExecutor.ExecuteHook` (config.go lines 186-239).  When no
executor field is populated the loop body does nothing, `lastErr` stays
nil, the loop breaks after one iteration, and the event keeps the zero
status "".  Otherwise the retry loop drives the executor through the
oracle; success sets status "success" (inside the executor), and a final
failure sets status "failure" with the message of the last error. -/
def ExecuteHook (h : Hook) (serviceName : String) (res : AttemptOracle) :
    HookExecResult :=
  if hasExecutor h then
    let out := attemptLoop res 0 (maxRetries h)
    match out.lastErr with
    | none =>
      { event := ⟨serviceName, h.type, "success", ""⟩
        attempts := out.attempts, sleeps := out.sleeps }
    | some e =>
      { event := ⟨serviceName, h.type, "failure", e⟩
        attempts := out.attempts, sleeps := out.sleeps }
  else
    { event := ⟨serviceName, h.type, "", ""⟩, attempts := 1, sleeps := [] }

/-- Oracle for a phase of hooks: maps the position of a hook in the
submitted hook list to the attempt oracle of that hook. -/
def PhaseOracle := Nat → AttemptOracle

/-- The hooks of `hs` selected for synchronous execution in phase
`hookType` by `ExecuteHooks` (config.go lines 335-355), paired with their
position in `hs`: enabled, matching type, not async. -/
def syncSelected (hs : List Hook) (hookType : String) : List (Nat × Hook) :=
  hs.enum.filter (fun p => p.2.enabled && p.2.type = hookType && !p.2.async)

/-- `HookExecutor.ExecuteHooks` (config.go lines 317-364).  The caller
feeds the selected synchronous hooks one at a time over the UNBUFFERED
channel `syncHooks` to a single worker goroutine, which executes each
hook and sends its event back over the unbuffered channel `syncEvents`;
the caller starts receiving events only after it has sent every hook and
closed `syncHooks`.  With no synchronous hook selected the exchange is
empty and the call returns `[]`; with exactly one, the worker's event
send pairs with the caller's drain loop and the call returns that one
event.  With two or more, the worker blocks sending the first event
while the caller blocks sending the second hook: the call deadlocks and
never returns, modeled as `none`.  Async hooks are spawned
fire-and-forget and contribute no event either way. -/
def ExecuteHooks (hs : List Hook) (hookType : String) (serviceName : String)
    (res : PhaseOracle) : Option (List HookEvent) :=
  match syncSelected hs hookType with
  | [] => some []
  | [p] => some [(ExecuteHook p.2 serviceName (res p.1)).event]
  | _ => none

/-- The synchronous hooks that actually execute in an `ExecuteHooks`
call: all selected hooks when the call returns (at most one), and only
the first when the channel exchange deadlocks — the worker receives and
executes it, then blocks sending its event, so the later hooks are never
received.  In every regime this is the first selected hook, if any. -/
def syncExecuted (hs : List Hook) (hookType : String) : List (Nat × Hook) :=
  (syncSelected hs hookType).take 1

end hooks

namespace hooks

/-- Go zero value of `hooks.ServiceConfig` (entity, part_004 lines
70-105).  The environment map is represented as an association list (the
Go map has no order; the renderer below iterates it in sorted key order
exactly as `text/template` does).  `restartDelaySec` is the
`time.Duration` field in nanoseconds. -/
structure ServiceConfig where
  serviceName : String
  description : String
  workingDirectory : String
  execStart : String
  user : String
  group : String
  environment : List (String × String)
  restartPolicy : String
  restartDelaySec : Nat
  startLimitBurst : Int
  memoryLimit : String
  cpuQuota : String
  tasksMax : Int
  after : List String
  before : List String
  requires : List String
  wants : List String
  hooks : List Hook
deriving DecidableEq

/-- The Go zero value of `ServiceConfig`. -/
def emptyServiceConfig : ServiceConfig :=
  ⟨"", "", "", "", "", "", [], "", 0, 0, "", "", 0, [], [], [], [], []⟩

/-- Go map assignment `env[k] = v` on the association-list
representation: overwrite the value when the key is present, otherwise
add the binding. -/
def envSet (env : List (String × String)) (k v : String) :
    List (String × String) :=
  if env.any (fun p => p.1 = k) then
    env.map (fun p => if p.1 = k then (k, v) else p)
  else env ++ [(k, v)]

end hooks

/-! ## `internal/service`: unit-file renderer (part_002 lines 14-159)
and the orchestrator (`service.go`). -/

namespace service

/-- Key order used by `text/template` when ranging over a
`map[string]string`: entries are visited in ascending key order. -/
def keyLe (a b : String × String) : Prop := a.1 ≤ b.1

instance : DecidableRel keyLe := fun a b =>
  inferInstanceAs (Decidable (a.1 ≤ b.1))

instance : IsTotal (String × String) keyLe := ⟨fun a b => le_total a.1 b.1⟩

instance : IsTrans (String × String) keyLe :=
  ⟨fun _ _ _ hab hbc => le_trans hab hbc⟩

/-- The environment map in the iteration order of the template `range`:
sorted by key (Go `text/template` visits map keys in sorted order). -/
def sortEnv (env : List (String × String)) : List (String × String) :=
  List.insertionSort keyLe env

/-- `service.SystemdConfig` (part_002 lines 85-93): the embedded
`ServiceConfig` plus the systemd-native hook command lists and the
precomputed `RestartSec` value. -/
structure SystemdConfig where
  config : hooks.ServiceConfig
  preStartHooks : List String
  postStartHooks : List String
  preStopHooks : List String
  postStopHooks : List String
  restartDelaySecValue : Nat
deriving DecidableEq

/-- The commands extracted for one phase by the hook loop of
`NewSystemdConfig` (part_002 lines 120-136): hooks with a non-empty
command and a matching type, in declaration order. -/
def hookCommands (hs : List hooks.Hook) (phase : String) : List String :=
  (hs.filter (fun h => h.command ≠ "" && h.type = phase)).map (fun h => h.command)

/-- `service.NewSystemdConfig` (part_002 lines 95-139).  With a non-nil
`ServiceConfig` argument that config is used as is; otherwise a basic
config is synthesized (description "name Service", restart policy
"always", exec path joined under the working directory).
`RestartDelaySecValue` is `int(RestartDelaySec.Seconds())`, i.e. the
nanosecond count divided by 1e9. -/
def NewSystemdConfig (serviceName workingDirectory startCmd : String)
    (serviceConfig : Option hooks.ServiceConfig) : SystemdConfig :=
  let config : hooks.ServiceConfig :=
    match serviceConfig with
    | some c => c
    | none =>
      { hooks.emptyServiceConfig with
        serviceName := serviceName
        description := serviceName ++ " Service"
        workingDirectory := workingDirectory
        execStart := gopath.join2 workingDirectory startCmd
        restartPolicy := "always" }
  { config := config
    preStartHooks := hookCommands config.hooks "pre_start"
    postStartHooks := hookCommands config.hooks "post_start"
    preStopHooks := hookCommands config.hooks "pre_stop"
    postStopHooks := hookCommands config.hooks "post_stop"
    restartDelaySecValue := config.restartDelaySec / 1000000000 }

/-- The unit-file text produced by executing the `systemdTpl` template
(part_002 lines 14-83) on a `SystemdConfig`, with the exact whitespace
the `{{-` trim markers leave behind.  Optional lines appear only when
the corresponding field is non-empty / non-zero, and environment entries
are emitted one per line, value quoted, in sorted key order. -/
def render (sc : SystemdConfig) : String :=
  let c := sc.config
  "[Unit]\nDescription=" ++ c.description
  ++ (if c.after ≠ [] then "\nAfter=" ++ String.intercalate " " c.after else "")
  ++ (if c.before ≠ [] then "\nBefore=" ++ String.intercalate " " c.before else "")
  ++ (if c.requires ≠ [] then "\nRequires=" ++ String.intercalate " " c.requires else "")
  ++ (if c.wants ≠ [] then "\nWants=" ++ String.intercalate " " c.wants else "")
  ++ "\n\n[Service]\nType=simple"
  ++ (if c.user ≠ "" then "\nUser=" ++ c.user else "")
  ++ (if c.group ≠ "" then "\nGroup=" ++ c.group else "")
  ++ "\nWorkingDirectory=" ++ c.workingDirectory
  ++ String.join ((sortEnv c.environment).map
      (fun p => "\nEnvironment=\"" ++ p.1 ++ "=" ++ p.2 ++ "\""))
  ++ String.join (sc.preStartHooks.map (fun h => "\nExecStartPre=" ++ h))
  ++ "\nExecStart=" ++ c.execStart
  ++ String.join (sc.postStartHooks.map (fun h => "\nExecStartPost=" ++ h))
  ++ String.join (sc.preStopHooks.map (fun h => "\nExecStopPre=" ++ h))
  ++ String.join (sc.postStopHooks.map (fun h => "\nExecStopPost=" ++ h))
  ++ "\nRestart=" ++ c.restartPolicy
  ++ (if c.restartDelaySec ≠ 0 then "\nRestartSec=" ++ toString sc.restartDelaySecValue else "")
  ++ (if c.startLimitBurst ≠ 0 then "\nStartLimitBurst=" ++ toString c.startLimitBurst else "")
  ++ (if c.memoryLimit ≠ "" then "\nMemoryMax=" ++ c.memoryLimit else "")
  ++ (if c.cpuQuota ≠ "" then "\nCPUQuota=" ++ c.cpuQuota else "")
  ++ (if c.tasksMax ≠ 0 then "\nTasksMax=" ++ toString c.tasksMax else "")
  ++ "\n\n[Install]\nWantedBy=multi-user.target\n"

end service

namespace service

/-- `service.DeployRequest` (service.go lines 69-77).  The notification
config only configures telemetry reporting and a fire-and-forget HTTP
callback, neither of which influences the deployment outcome; it is not
modeled. -/
structure DeployRequest where
  service : String
  path : String
  packageURL : String
  startCommand : String
  config : Option hooks.ServiceConfig
  hooks : List hooks.Hook
deriving DecidableEq

/-- Observable side effects of the orchestrator, in program order. -/
inductive Effect where
  | ensureServiceDir (name : String)
  | ensureLogDir (name : String)
  | hookRun (phase : String) (event : hooks.HookEvent)
  | urlCheck (url : String)
  | fetch (url dest : String)
  | writeUnit (path content : String)
  | reloadDaemon
  | enableUnit (name : String)
  | startUnit (name : String)
  | stopUnit (name : String)
  | disableUnit (name : String)
  | removeFile (path : String)
  | cleanupWorkspace (name : String)
  | listUnits
deriving DecidableEq

/-- Outcomes of the external calls a `Deploy` run makes, in the order
the pipeline consults them.  `none` / `Except.ok` is success. -/
structure World where
  mkdirServiceDirErr : Option String
  mkdirLogDirErr : Option String
  preRes : hooks.PhaseOracle
  postRes : hooks.PhaseOracle
  fetchResult : Except String (List String)
  writeErr : Option String
  reloadErr : Option String
  enableErr : Option String
  startErr : Option String

/-- The `ServiceConfig` built by `Deploy` (service.go lines 172-199):
the caller config, when present, has its name, working directory and
exec path overwritten; otherwise a default config with restart policy
"always" is synthesized.  Then the computed log directory is stored in
the environment under "LOG_DIR" and the request hooks are appended. -/
def BuildConfig (req : DeployRequest) (serviceDir logDir folder : String) :
    hooks.ServiceConfig :=
  let config : hooks.ServiceConfig :=
    match req.config with
    | some c =>
      { c with
        serviceName := req.service
        workingDirectory := gopath.join2 serviceDir folder
        execStart := gopath.join3 serviceDir folder req.startCommand }
    | none =>
      { hooks.emptyServiceConfig with
        serviceName := req.service
        description := req.service ++ " Service"
        workingDirectory := gopath.join2 serviceDir folder
        execStart := gopath.join3 serviceDir folder req.startCommand
        restartPolicy := "always"
        hooks := [] }
  let config :=
    { config with environment := hooks.envSet config.environment "LOG_DIR" logDir }
  if req.hooks ≠ [] then { config with hooks := config.hooks ++ req.hooks }
  else config

/-- The post_start `ExecuteHooks` call of `Deploy` (service.go lines
232-238), guarded by `len(params.Hooks) > 0`: `none` when the call
deadlocks (two or more enabled synchronous post_start hooks), otherwise
the collected events. -/
def postCall (req : DeployRequest) (w : World) : Option (List hooks.HookEvent) :=
  if req.hooks ≠ [] then
    hooks.ExecuteHooks req.hooks "post_start" req.service w.postRes
  else some []

/-- The post_start hook executions observed in a `Deploy` run: the
events of the synchronous post_start hooks that actually run.  When the
phase call returns these are exactly the collected events; when it
deadlocks, only the first selected hook has run. -/
def postEvents (req : DeployRequest) (w : World) : List hooks.HookEvent :=
  (hooks.syncExecuted req.hooks "post_start").map
    (fun p => (hooks.ExecuteHook p.2 req.service (w.postRes p.1)).event)

/-- The unit-file text `Deploy` writes (service.go lines 201-208):
render the template on the config built by `BuildConfig`. -/
def unitContent (req : DeployRequest) (serviceDir logDir folder : String) :
    String :=
  render (NewSystemdConfig req.service
    (BuildConfig req serviceDir logDir folder).workingDirectory
    req.startCommand (some (BuildConfig req serviceDir logDir folder)))

/-- The tail of `Deploy` from URL validation onward (service.go lines
152-261): validate the package URL, download and extract, take the first
extracted folder, build the config, render and write the unit file,
reload the daemon, enable and start the unit, then run the post_start
hooks, whose failures are only reported.  The first component is `none`
when the run reaches the post_start phase and the hook call deadlocks:
the call never returns, so `Deploy` never returns, with the executed
first post hook still in the trace. -/
def DeployRest (req : DeployRequest) (w : World) (serviceDir logDir : String) :
    Option (Except String Unit) × List Effect :=
  match artifact.ValidateURL req.packageURL with
  | .error e =>
    (some (.error ("invalid package URL: " ++ e)), [.urlCheck req.packageURL])
  | .ok _ =>
  match w.fetchResult with
  | .error e =>
    (some (.error ("failed to download and extract artifact: " ++ e)),
     [.urlCheck req.packageURL, .fetch req.packageURL serviceDir])
  | .ok folders =>
  let folder := artifact.GetFirstFolder folders
  if folder = "" then
    (some (.error "failed to extract folder name"),
     [.urlCheck req.packageURL, .fetch req.packageURL serviceDir])
  else
  let systemdFile := "/etc/systemd/system/" ++ req.service ++ ".service"
  let content := unitContent req serviceDir logDir folder
  let tr1 := [Effect.urlCheck req.packageURL, .fetch req.packageURL serviceDir,
              .writeUnit systemdFile content]
  match w.writeErr with
  | some e => (some (.error ("failed to write systemd config: " ++ e)), tr1)
  | none =>
  match w.reloadErr with
  | some e =>
    (some (.error ("failed to reload systemd daemon: " ++ e)), tr1 ++ [.reloadDaemon])
  | none =>
  match w.enableErr with
  | some e =>
    (some (.error ("failed to enable service: " ++ e)),
     tr1 ++ [.reloadDaemon, .enableUnit req.service])
  | none =>
  match w.startErr with
  | some e =>
    (some (.error ("failed to start service: " ++ e)),
     tr1 ++ [.reloadDaemon, .enableUnit req.service, .startUnit req.service])
  | none =>
  match postCall req w with
  | none =>
    (none,
     tr1 ++ [.reloadDaemon, .enableUnit req.service, .startUnit req.service]
         ++ (postEvents req w).map (Effect.hookRun "post_start"))
  | some _ =>
  (some (.ok ()),
   tr1 ++ [.reloadDaemon, .enableUnit req.service, .startUnit req.service]
       ++ (postEvents req w).map (Effect.hookRun "post_start"))

/-- The pre_start `ExecuteHooks` call of `Deploy` (service.go lines
130-136), guarded by `len(params.Hooks) > 0`: `none` when the call
deadlocks (two or more enabled synchronous pre_start hooks), otherwise
the collected events. -/
def preCall (req : DeployRequest) (w : World) : Option (List hooks.HookEvent) :=
  if req.hooks ≠ [] then
    hooks.ExecuteHooks req.hooks "pre_start" req.service w.preRes
  else some []

/-- The pre_start hook executions observed in a `Deploy` run: the
events of the synchronous pre_start hooks that actually run.  When the
phase call returns (at most one hook selected) these are exactly the
collected events `preCall` carries, so the failure gate below is
equivalently stated on them; when the call deadlocks, only the first
selected hook has run. -/
def preEvents (req : DeployRequest) (w : World) : List hooks.HookEvent :=
  (hooks.syncExecuted req.hooks "pre_start").map
    (fun p => (hooks.ExecuteHook p.2 req.service (w.preRes p.1)).event)

/-- The trace prefix common to every `Deploy` run that reaches the
pre_start gate: directory creation followed by the collected pre_start
hook executions. -/
def preBase (req : DeployRequest) (w : World) : List Effect :=
  [Effect.ensureServiceDir req.service, .ensureLogDir req.service]
  ++ (preEvents req w).map (Effect.hookRun "pre_start")

/-- `service.Deploy` (service.go lines 89-262): validate the service
name, take the exclusive lock (modeled separately, see the lock section),
create the workspace service and log directories, run the pre_start
hooks and abort on the first collected failure, then hand over to
`DeployRest`.  The first component is `none` when the run never returns:
the pre_start (or, inside `DeployRest`, the post_start) hook call
deadlocks; the trace then holds the effects performed before the hang.
Telemetry reporting (lines 120-128, 141-148, 246-258) has no effect on
the result or on the modeled side effects and is omitted. -/
def Deploy (workDir : String) (req : DeployRequest) (w : World) :
    Option (Except String Unit) × List Effect :=
  match validator.ValidateServiceName req.service with
  | .error e => (some (.error ("validation failed: " ++ e)), [])
  | .ok _ =>
  let serviceDir := gopath.join3 workDir "services" req.service
  match w.mkdirServiceDirErr with
  | some e =>
    (some (.error ("failed to create service directory: " ++ e)),
     [.ensureServiceDir req.service])
  | none =>
  let logDir := gopath.join3 workDir "logs" req.service
  match w.mkdirLogDirErr with
  | some e =>
    (some (.error ("failed to create log directory: " ++ e)),
     [.ensureServiceDir req.service, .ensureLogDir req.service])
  | none =>
  match preCall req w with
  | none => (none, preBase req w)
  | some _ =>
  match (preEvents req w).find? (fun ev => ev.status == "failure") with
  | some ev => (some (.error ("pre-start hook failed: " ++ ev.error)), preBase req w)
  | none =>
    let rest := DeployRest req w serviceDir logDir
    (rest.1, preBase req w ++ rest.2)

/-- Outcomes of the external calls `Remove` makes. -/
structure RemoveWorld where
  stopErr : Option String
  disableErr : Option String
  removeFileErr : Option String
  reloadErr : Option String
  cleanupErr : Option String
deriving DecidableEq

/-- `service.Remove` (service.go lines 290-339): validate the name, stop
the unit, disable it, delete the unit file, reload the daemon, and
best-effort clean the workspace directories (a cleanup failure is only
logged).  The first failing step aborts with its error; nothing that
already happened is undone. -/
def Remove (serviceName : String) (w : RemoveWorld) :
    Except String Unit × List Effect :=
  match validator.ValidateServiceName serviceName with
  | .error e => (.error ("validation failed: " ++ e), [])
  | .ok _ =>
  match w.stopErr with
  | some e => (.error ("failed to stop service: " ++ e), [.stopUnit serviceName])
  | none =>
  match w.disableErr with
  | some e =>
    (.error ("failed to disable service: " ++ e),
     [.stopUnit serviceName, .disableUnit serviceName])
  | none =>
  let systemdFile := "/etc/systemd/system/" ++ serviceName ++ ".service"
  match w.removeFileErr with
  | some e =>
    (.error ("failed to remove systemd service file: " ++ e),
     [.stopUnit serviceName, .disableUnit serviceName, .removeFile systemdFile])
  | none =>
  match w.reloadErr with
  | some e =>
    (.error ("failed to reload systemd daemon: " ++ e),
     [.stopUnit serviceName, .disableUnit serviceName, .removeFile systemdFile,
      .reloadDaemon])
  | none =>
  (.ok (),
   [.stopUnit serviceName, .disableUnit serviceName, .removeFile systemdFile,
    .reloadDaemon, .cleanupWorkspace serviceName])

end service

namespace service

/-- Additional lifecycle operations, modeled for their lock usage and
init-system calls.  `Stop` (service.go lines 264-288) stops then
disables; `Restart` (lines 341-358) and `Start` (lines 377-394) issue a
single `Send`. -/
def Stop (serviceName : String) (stopErr disableErr : Option String) :
    Except String Unit × List Effect :=
  match validator.ValidateServiceName serviceName with
  | .error e => (.error ("validation failed: " ++ e), [])
  | .ok _ =>
  match stopErr with
  | some e => (.error ("failed to stop service: " ++ e), [.stopUnit serviceName])
  | none =>
  match disableErr with
  | some e =>
    (.error ("failed to disable service: " ++ e),
     [.stopUnit serviceName, .disableUnit serviceName])
  | none => (.ok (), [.stopUnit serviceName, .disableUnit serviceName])

/-- `service.Start` (service.go lines 377-394). -/
def Start (serviceName : String) (startErr : Option String) :
    Except String Unit × List Effect :=
  match validator.ValidateServiceName serviceName with
  | .error e => (.error ("validation failed: " ++ e), [])
  | .ok _ =>
  match startErr with
  | some e => (.error ("failed to start service: " ++ e), [.startUnit serviceName])
  | none => (.ok (), [.startUnit serviceName])

/-- `service.Restart` (service.go lines 341-358); the restart `Send` is
modeled as a `startUnit` preceded by nothing and distinguished only by
the operation it belongs to. -/
def Restart (serviceName : String) (restartErr : Option String) :
    Except String Unit × List Effect :=
  match validator.ValidateServiceName serviceName with
  | .error e => (.error ("validation failed: " ++ e), [])
  | .ok _ =>
  match restartErr with
  | some e => (.error ("failed to restart service: " ++ e), [.startUnit serviceName])
  | none => (.ok (), [.startUnit serviceName])

end service

/-! ## The process-wide read/write lock (`service.mu`, service.go line
45) and an interleaving semantics for two concurrent operations.

Each operation is abstracted to the sequence of lock actions and
effectful work it performs.  `Deploy` takes the lock exclusively right
after validation and releases it on exit (service.go lines 96-98);
`ListServices` takes it in shared mode (lines 455-457); the other
lifecycle operations never touch it. -/

namespace locking

/-- An atomic action of one thread: lock/unlock in write or read mode,
or a unit of effectful work. -/
inductive LockAct where
  | lockW
  | unlockW
  | lockR
  | unlockR
  | work (e : service.Effect)
deriving DecidableEq

/-- True for the four lock-manipulation actions. -/
def isLockAct : LockAct → Bool
  | .work _ => false
  | _ => true

/-- A configuration of two threads sharing one read/write lock:
the reader count, the writer owner (if any), the remaining scripts of
thread `false` and thread `true`, and the history of executed actions. -/
structure Cfg where
  readers : Nat
  writer : Option Bool
  rem0 : List LockAct
  rem1 : List LockAct
  hist : List (Bool × LockAct)
deriving DecidableEq

/-- Whether thread `t` may execute action `a` now: a write lock needs no
writer and no readers, a read lock only no writer, an unlock needs the
corresponding hold, and work is always enabled. -/
def enabledAct (readers : Nat) (writer : Option Bool) (t : Bool) :
    LockAct → Bool
  | .lockW => writer.isNone && readers == 0
  | .unlockW => writer == some t
  | .lockR => writer.isNone
  | .unlockR => 0 < readers
  | .work _ => true

/-- Reader count after an action. -/
def applyReaders (readers : Nat) : LockAct → Nat
  | .lockR => readers + 1
  | .unlockR => readers - 1
  | _ => readers

/-- Writer owner after thread `t` performs an action. -/
def applyWriter (writer : Option Bool) (t : Bool) : LockAct → Option Bool
  | .lockW => some t
  | .unlockW => none
  | _ => writer

/-- One scheduler step: the chosen thread executes the head of its
remaining script, provided that action is enabled; a thread whose head
action is not enabled is blocked (the Go mutex blocks the goroutine). -/
inductive Step : Cfg → Cfg → Prop where
  | thread0 {c : Cfg} {a : LockAct} {rest : List LockAct}
      (hrem : c.rem0 = a :: rest)
      (hen : enabledAct c.readers c.writer false a = true) :
      Step c
        { readers := applyReaders c.readers a
          writer := applyWriter c.writer false a
          rem0 := rest
          rem1 := c.rem1
          hist := c.hist ++ [(false, a)] }
  | thread1 {c : Cfg} {a : LockAct} {rest : List LockAct}
      (hrem : c.rem1 = a :: rest)
      (hen : enabledAct c.readers c.writer true a = true) :
      Step c
        { readers := applyReaders c.readers a
          writer := applyWriter c.writer true a
          rem0 := c.rem0
          rem1 := rest
          hist := c.hist ++ [(true, a)] }

/-- Reachability by any interleaving of scheduler steps. -/
inductive Reach (c0 : Cfg) : Cfg → Prop where
  | refl : Reach c0 c0
  | tail {b c : Cfg} : Reach c0 b → Step b c → Reach c0 c

/-- The acquire action of a critical section: write or read mode. -/
def acq (k : Bool) : LockAct := if k then .lockW else .lockR

/-- The release action of a critical section. -/
def rel (k : Bool) : LockAct := if k then .unlockW else .unlockR

/-- A whole critical-section script: acquire, body, release. -/
def cs (k : Bool) (body : List LockAct) : List LockAct :=
  acq k :: body ++ [rel k]

/-- The history entries of thread `t` running script `s` alone. -/
def tag (t : Bool) (s : List LockAct) : List (Bool × LockAct) :=
  s.map (fun a => (t, a))

/-- Initial configuration: free lock, both scripts pending, no history. -/
def init (k0 k1 : Bool) (b0 b1 : List LockAct) : Cfg :=
  ⟨0, none, cs k0 b0, cs k1 b1, []⟩

/-- Reader count while a thread holds the lock in mode `k`. -/
def rdK (k : Bool) : Nat := if k then 0 else 1

/-- Writer owner while thread `t` holds the lock in mode `k`. -/
def wrK (k : Bool) (t : Bool) : Option Bool := if k then some t else none

end locking

namespace locking

/-- Invariant of two critical sections contending for the lock: at every
reachable configuration either neither, exactly one, or both sections
have run, and the history is always a prefix-interleaving in which the
two bodies never overlap. -/
def Inv (k0 k1 : Bool) (b0 b1 : List LockAct) (c : Cfg) : Prop :=
  (c = init k0 k1 b0 b1) ∨
  (∃ pre rest, b0 = pre ++ rest ∧
     c = ⟨rdK k0, wrK k0 false, rest ++ [rel k0], cs k1 b1,
          tag false (acq k0 :: pre)⟩) ∨
  (∃ pre rest, b1 = pre ++ rest ∧
     c = ⟨rdK k1, wrK k1 true, cs k0 b0, rest ++ [rel k1],
          tag true (acq k1 :: pre)⟩) ∨
  (c = ⟨0, none, [], cs k1 b1, tag false (cs k0 b0)⟩) ∨
  (c = ⟨0, none, cs k0 b0, [], tag true (cs k1 b1)⟩) ∨
  (∃ pre rest, b1 = pre ++ rest ∧
     c = ⟨rdK k1, wrK k1 true, [], rest ++ [rel k1],
          tag false (cs k0 b0) ++ tag true (acq k1 :: pre)⟩) ∨
  (∃ pre rest, b0 = pre ++ rest ∧
     c = ⟨rdK k0, wrK k0 false, rest ++ [rel k0], [],
          tag true (cs k1 b1) ++ tag false (acq k0 :: pre)⟩) ∨
  (c = ⟨0, none, [], [], tag false (cs k0 b0) ++ tag true (cs k1 b1)⟩) ∨
  (c = ⟨0, none, [], [], tag true (cs k1 b1) ++ tag false (cs k0 b0)⟩)


end locking
namespace service

/-- Effect classifier: a collected pre_start hook execution. -/
def isPreHookRun : Effect → Bool
  | .hookRun ph _ => ph = "pre_start"
  | _ => false

/-- Effect classifier: a collected post_start hook execution. -/
def isPostHookRun : Effect → Bool
  | .hookRun ph _ => ph = "post_start"
  | _ => false

/-- Effect classifier: the artifact download and extraction. -/
def isFetch : Effect → Bool
  | .fetch _ _ => true
  | _ => false

/-- Effect classifier: the unit-file write. -/
def isWrite : Effect → Bool
  | .writeUnit _ _ => true
  | _ => false

/-- Effect classifier: the daemon reload. -/
def isReload : Effect → Bool
  | .reloadDaemon => true
  | _ => false

/-- Effect classifier: the enable-unit call. -/
def isEnable : Effect → Bool
  | .enableUnit _ => true
  | _ => false

/-- Effect classifier: the start call. -/
def isStart : Effect → Bool
  | .startUnit _ => true
  | _ => false

/-- Every effect satisfying `p` occurs strictly before every effect
satisfying `q` in the trace. -/
def allBefore (p q : Effect → Bool) (tr : List Effect) : Prop :=
  ∀ i j (hi : i < tr.length) (hj : j < tr.length),
    p (tr.get ⟨i, hi⟩) = true → q (tr.get ⟨j, hj⟩) = true → i < j

/-- Pipeline stage of an effect, used to state that every `Deploy`
trace is ordered: directories, pre_start hooks, fetching, unit write,
reload, enable, start, post_start hooks. -/
def stageOf : Effect → Nat
  | .ensureServiceDir _ => 0
  | .ensureLogDir _ => 0
  | .hookRun ph _ => if ph = "pre_start" then 1 else 7
  | .urlCheck _ => 2
  | .fetch _ _ => 2
  | .writeUnit _ _ => 3
  | .reloadDaemon => 4
  | .enableUnit _ => 5
  | .startUnit _ => 6
  | _ => 8

/-- Stage order on effects. -/
def stageLe (a b : Effect) : Prop := stageOf a ≤ stageOf b

/-- The trace of a fully successful `Deploy` run; every `Deploy` trace
is a prefix of it, since aborted runs stop early. -/
def FullTrace (workDir : String) (req : DeployRequest) (w : World) :
    List Effect :=
  let serviceDir := gopath.join3 workDir "services" req.service
  let logDir := gopath.join3 workDir "logs" req.service
  let folders := match w.fetchResult with | .ok fs => fs | .error _ => []
  let folder := artifact.GetFirstFolder folders
  preBase req w
  ++ [Effect.urlCheck req.packageURL, .fetch req.packageURL serviceDir,
      .writeUnit ("/etc/systemd/system/" ++ req.service ++ ".service")
        (unitContent req serviceDir logDir folder),
      .reloadDaemon, .enableUnit req.service, .startUnit req.service]
  ++ (postEvents req w).map (Effect.hookRun "post_start")

/-- Strict key order on environment entries. -/
def keyLt (a b : String × String) : Prop := a.1 < b.1

instance : IsAntisymm (String × String) keyLt :=
  ⟨fun _ _ h1 h2 => (lt_asymm h1 h2).elim⟩

/-- The lock-action script of `Deploy` (service.go lines 89-98): the
exclusive lock is taken right after name validation and held, via defer,
for the whole remaining pipeline. -/
def DeployActs (workDir : String) (req : DeployRequest) (w : World) :
    List locking.LockAct :=
  match validator.ValidateServiceName req.service with
  | .error _ => []
  | .ok _ => .lockW :: ((Deploy workDir req w).2.map .work ++ [.unlockW])

/-- The lock-action script of `ListServices` (service.go lines 455-505):
the shared lock around the unit enumeration and pure filtering. -/
def ListServicesActs : List locking.LockAct :=
  [.lockR, .work .listUnits, .unlockR]

/-- The action script of `Start`: pure work, no lock participation. -/
def StartActs (n : String) (e : Option String) : List locking.LockAct :=
  (Start n e).2.map .work

/-- The action script of `Stop`: pure work, no lock participation. -/
def StopActs (n : String) (e1 e2 : Option String) : List locking.LockAct :=
  (Stop n e1 e2).2.map .work

/-- The action script of `Restart`: pure work, no lock participation. -/
def RestartActs (n : String) (e : Option String) : List locking.LockAct :=
  (Restart n e).2.map .work

/-- The action script of `Remove`: pure work, no lock participation. -/
def RemoveActs (n : String) (w : RemoveWorld) : List locking.LockAct :=
  (Remove n w).2.map .work

end service

/-! ## Concrete fixtures for witnesses and counterexamples. -/

namespace fx

/-- An attempt oracle on which every executor invocation fails. -/
def failRes : hooks.AttemptOracle := fun _ => some "boom"

/-- An attempt oracle that succeeds from the third attempt on. -/
def lateRes : hooks.AttemptOracle := fun j => if j < 2 then some "boom" else none

/-- A retrying command hook (retry = 3). -/
def retryHook : hooks.Hook := ⟨"pre_start", "prep", "echo hi", "", "", 0, 3, true, false⟩

/-- An enabled asynchronous pre_start hook with a command. -/
def asyncHook : hooks.Hook := ⟨"pre_start", "notify", "curl cb", "", "", 0, 0, true, true⟩

/-- An enabled synchronous pre_start hook with a command. -/
def syncHook : hooks.Hook := ⟨"pre_start", "prep", "echo hi", "", "", 0, 0, true, false⟩

/-- An enabled synchronous post_start hook with a command. -/
def postHook : hooks.Hook := ⟨"post_start", "warm", "curl warm", "", "", 0, 0, true, false⟩

/-- A hook with no command, no script and no callback URL. -/
def emptyHook : hooks.Hook := ⟨"pre_start", "noop", "", "", "", 0, 0, true, false⟩

/-- Every external call succeeds, pre_start executors fail, and the
archive extracts to the single folder "app". -/
def failPreWorld : service.World :=
  ⟨none, none, fun _ => failRes, fun _ => fun _ => none, .ok ["app"], none, none, none, none⟩

/-- Every external call and every hook executor succeeds. -/
def okWorld : service.World :=
  ⟨none, none, fun _ => fun _ => none, fun _ => fun _ => none, .ok ["app"], none, none, none, none⟩

/-- Everything succeeds except the post_start hook executors. -/
def failPostWorld : service.World :=
  ⟨none, none, fun _ => fun _ => none, fun _ => failRes, .ok ["app"], none, none, none, none⟩

/-- Request with one failing asynchronous pre_start hook. -/
def asyncReq : service.DeployRequest :=
  ⟨"demo", "/custom/path", "http://x/app.tar.gz", "run.sh", none, [asyncHook]⟩

/-- Request with one synchronous pre_start hook. -/
def syncReq : service.DeployRequest :=
  ⟨"demo", "/custom/path", "http://x/app.tar.gz", "run.sh", none, [syncHook]⟩

/-- Request with one post_start hook and no caller config. -/
def postReq : service.DeployRequest :=
  ⟨"demo", "/custom/path", "http://x/app.tar.gz", "run.sh", none, [postHook]⟩

/-- A second enabled synchronous post_start hook with a command. -/
def postHookB : hooks.Hook := ⟨"post_start", "announce", "curl hi", "", "", 0, 0, true, false⟩

/-- Request with two enabled synchronous post_start hooks: the
post_start `ExecuteHooks` call deadlocks on it. -/
def twoPostReq : service.DeployRequest :=
  ⟨"demo", "/custom/path", "http://x/app.tar.gz", "run.sh", none, [postHook, postHookB]⟩

/-- Request with two enabled synchronous pre_start hooks: the pre_start
`ExecuteHooks` call deadlocks on it. -/
def twoPreReq : service.DeployRequest :=
  ⟨"demo", "/custom/path", "http://x/app.tar.gz", "run.sh", none, [syncHook, retryHook]⟩

/-- A second service deployed concurrently. -/
def otherReq : service.DeployRequest :=
  ⟨"other", "/custom/path", "http://x/app.tar.gz", "run.sh", none, []⟩

/-- The workspace root used by the fixtures (the default WORK_DIR). -/
def wd : String := "/opt/api-systemd"

/-- Remove world in which stop and disable succeed but deleting the unit
file fails because the file does not exist. -/
def removeFailWorld : service.RemoveWorld :=
  ⟨none, none, some "no such file or directory", none, none⟩

end fx

namespace locking

theorem work_eq {a : LockAct} (h : isLockAct a = false) : ∃ e, a = .work e := by
  cases a <;> simp [isLockAct] at h ⊢

theorem tag_append (t : Bool) (s u : List LockAct) :
    tag t (s ++ u) = tag t s ++ tag t u := List.map_append _ _ _

theorem acq_enabled (k : Bool) (t : Bool) :
    enabledAct 0 none t (acq k) = true := by
  cases k <;> simp [enabledAct, acq]

theorem rel_enabled (k : Bool) (t : Bool) :
    enabledAct (rdK k) (wrK k t) t (rel k) = true := by
  cases k <;> simp [enabledAct, rel, rdK, wrK]

theorem acq_blocked {kIn kAcq : Bool} (tIn tAcq : Bool)
    (hw : kIn = true ∨ kAcq = true) :
    enabledAct (rdK kIn) (wrK kIn tIn) tAcq (acq kAcq) = false := by
  cases kIn <;> cases kAcq <;>
    simp [enabledAct, acq, rdK, wrK] at hw ⊢

theorem applyReaders_acq (k : Bool) : applyReaders 0 (acq k) = rdK k := by
  cases k <;> rfl

theorem applyWriter_acq (k t : Bool) : applyWriter none t (acq k) = wrK k t := by
  cases k <;> rfl

theorem applyReaders_rel (k : Bool) : applyReaders (rdK k) (rel k) = 0 := by
  cases k <;> rfl

theorem applyWriter_rel (k t : Bool) : applyWriter (wrK k t) t (rel k) = none := by
  cases k <;> rfl


end locking

namespace locking

theorem inv_step {k0 k1 : Bool} {b0 b1 : List LockAct}
    (hw : k0 = true ∨ k1 = true)
    (hb0 : ∀ a ∈ b0, isLockAct a = false)
    (hb1 : ∀ a ∈ b1, isLockAct a = false)
    {b c : Cfg} (hI : Inv k0 k1 b0 b1 b) (hs : Step b c) :
    Inv k0 k1 b0 b1 c := by
  rcases hI with h | ⟨pre, rest, hsp, h⟩ | ⟨pre, rest, hsp, h⟩ | h | h |
    ⟨pre, rest, hsp, h⟩ | ⟨pre, rest, hsp, h⟩ | h | h
  -- shape 1: both pending
  · subst h
    cases hs with
    | thread0 hrem hen =>
      simp only [init, cs] at hrem
      obtain ⟨ha, hrest⟩ := List.cons.injEq .. |>.mp hrem
      subst ha; subst hrest
      refine Or.inr (Or.inl ⟨[], b0, by simp, ?_⟩)
      simp [init, applyReaders_acq, applyWriter_acq, tag]
    | thread1 hrem hen =>
      simp only [init, cs] at hrem
      obtain ⟨ha, hrest⟩ := List.cons.injEq .. |>.mp hrem
      subst ha; subst hrest
      refine Or.inr (Or.inr (Or.inl ⟨[], b1, by simp, ?_⟩))
      simp [init, applyReaders_acq, applyWriter_acq, tag]
  -- shape 2a: thread0 in critical section
  · subst h
    cases hs with
    | thread0 hrem hen =>
      cases rest with
      | nil =>
        simp only [List.nil_append] at hrem
        obtain ⟨ha, hrest⟩ := List.cons.injEq .. |>.mp hrem
        subst ha; subst hrest
        refine Or.inr (Or.inr (Or.inr (Or.inl ?_)))
        have hb : b0 = pre := by simpa using hsp
        subst hb
        simp [applyReaders_rel, applyWriter_rel, cs, tag, tag_append]
      | cons r rs =>
        simp only [List.cons_append] at hrem
        obtain ⟨ha, hrest⟩ := List.cons.injEq .. |>.mp hrem
        subst ha; subst hrest
        have hr : isLockAct r = false := hb0 r (by rw [hsp]; simp)
        obtain ⟨e, he⟩ := work_eq hr
        subst he
        refine Or.inr (Or.inl ⟨pre ++ [.work e], rs, by rw [hsp]; simp, ?_⟩)
        simp [applyReaders, applyWriter, tag]
    | thread1 hrem hen =>
      simp only [cs] at hrem
      obtain ⟨ha, hrest⟩ := List.cons.injEq .. |>.mp hrem
      subst ha
      exact absurd hen (by simp [acq_blocked _ _ hw])
  -- shape 2b: thread1 in critical section
  · subst h
    cases hs with
    | thread0 hrem hen =>
      simp only [cs] at hrem
      obtain ⟨ha, hrest⟩ := List.cons.injEq .. |>.mp hrem
      subst ha
      exact absurd hen (by simp [acq_blocked _ _ hw.symm])
    | thread1 hrem hen =>
      cases rest with
      | nil =>
        simp only [List.nil_append] at hrem
        obtain ⟨ha, hrest⟩ := List.cons.injEq .. |>.mp hrem
        subst ha; subst hrest
        refine Or.inr (Or.inr (Or.inr (Or.inr (Or.inl ?_))))
        have hb : b1 = pre := by simpa using hsp
        subst hb
        simp [applyReaders_rel, applyWriter_rel, cs, tag, tag_append]
      | cons r rs =>
        simp only [List.cons_append] at hrem
        obtain ⟨ha, hrest⟩ := List.cons.injEq .. |>.mp hrem
        subst ha; subst hrest
        have hr : isLockAct r = false := hb1 r (by rw [hsp]; simp)
        obtain ⟨e, he⟩ := work_eq hr
        subst he
        refine Or.inr (Or.inr (Or.inl ⟨pre ++ [.work e], rs, by rw [hsp]; simp, ?_⟩))
        simp [applyReaders, applyWriter, tag]
  -- shape 3a: thread0 done, thread1 pending
  · subst h
    cases hs with
    | thread0 hrem hen => simp at hrem
    | thread1 hrem hen =>
      simp only [cs] at hrem
      obtain ⟨ha, hrest⟩ := List.cons.injEq .. |>.mp hrem
      subst ha; subst hrest
      refine Or.inr (Or.inr (Or.inr (Or.inr (Or.inr (Or.inl ⟨[], b1, by simp, ?_⟩)))))
      simp [applyReaders_acq, applyWriter_acq, tag, tag_append]
  -- shape 3b: thread1 done, thread0 pending
  · subst h
    cases hs with
    | thread0 hrem hen =>
      simp only [cs] at hrem
      obtain ⟨ha, hrest⟩ := List.cons.injEq .. |>.mp hrem
      subst ha; subst hrest
      refine Or.inr (Or.inr (Or.inr (Or.inr (Or.inr (Or.inr (Or.inl ⟨[], b0, by simp, ?_⟩))))))
      simp [applyReaders_acq, applyWriter_acq, tag, tag_append]
    | thread1 hrem hen => simp at hrem
  -- shape 4a: thread0 done, thread1 in critical section
  · subst h
    cases hs with
    | thread0 hrem hen => simp at hrem
    | thread1 hrem hen =>
      cases rest with
      | nil =>
        simp only [List.nil_append] at hrem
        obtain ⟨ha, hrest⟩ := List.cons.injEq .. |>.mp hrem
        subst ha; subst hrest
        refine Or.inr (Or.inr (Or.inr (Or.inr (Or.inr (Or.inr (Or.inr (Or.inl ?_)))))))
        have hb : b1 = pre := by simpa using hsp
        subst hb
        simp [applyReaders_rel, applyWriter_rel, cs, tag, tag_append]
      | cons r rs =>
        simp only [List.cons_append] at hrem
        obtain ⟨ha, hrest⟩ := List.cons.injEq .. |>.mp hrem
        subst ha; subst hrest
        have hr : isLockAct r = false := hb1 r (by rw [hsp]; simp)
        obtain ⟨e, he⟩ := work_eq hr
        subst he
        refine Or.inr (Or.inr (Or.inr (Or.inr (Or.inr (Or.inl
          ⟨pre ++ [.work e], rs, by rw [hsp]; simp, ?_⟩)))))
        simp [applyReaders, applyWriter, tag]
  -- shape 4b: thread1 done, thread0 in critical section
  · subst h
    cases hs with
    | thread0 hrem hen =>
      cases rest with
      | nil =>
        simp only [List.nil_append] at hrem
        obtain ⟨ha, hrest⟩ := List.cons.injEq .. |>.mp hrem
        subst ha; subst hrest
        refine Or.inr (Or.inr (Or.inr (Or.inr (Or.inr (Or.inr (Or.inr (Or.inr ?_)))))))
        have hb : b0 = pre := by simpa using hsp
        subst hb
        simp [applyReaders_rel, applyWriter_rel, cs, tag, tag_append]
      | cons r rs =>
        simp only [List.cons_append] at hrem
        obtain ⟨ha, hrest⟩ := List.cons.injEq .. |>.mp hrem
        subst ha; subst hrest
        have hr : isLockAct r = false := hb0 r (by rw [hsp]; simp)
        obtain ⟨e, he⟩ := work_eq hr
        subst he
        refine Or.inr (Or.inr (Or.inr (Or.inr (Or.inr (Or.inr (Or.inl
          ⟨pre ++ [.work e], rs, by rw [hsp]; simp, ?_⟩))))))
        simp [applyReaders, applyWriter, tag]
    | thread1 hrem hen => simp at hrem
  -- shape 5a: both done, thread0 first
  · subst h
    cases hs with
    | thread0 hrem hen => simp at hrem
    | thread1 hrem hen => simp at hrem
  -- shape 5b: both done, thread1 first
  · subst h
    cases hs with
    | thread0 hrem hen => simp at hrem
    | thread1 hrem hen => simp at hrem

end locking

namespace locking

theorem reach_inv {k0 k1 : Bool} {b0 b1 : List LockAct}
    (hw : k0 = true ∨ k1 = true)
    (hb0 : ∀ a ∈ b0, isLockAct a = false)
    (hb1 : ∀ a ∈ b1, isLockAct a = false)
    {c : Cfg} (h : Reach (init k0 k1 b0 b1) c) :
    Inv k0 k1 b0 b1 c := by
  induction h with
  | refl => exact Or.inl rfl
  | tail _ hs ih => exact inv_step hw hb0 hb1 ih hs

/-- Mutual exclusion: when two critical sections contend for the lock
and at least one of them is a writer, every complete interleaving runs
one section to completion before the other starts, so their bodies never
overlap. -/
theorem serialized {k0 k1 : Bool} {b0 b1 : List LockAct}
    (hw : k0 = true ∨ k1 = true)
    (hb0 : ∀ a ∈ b0, isLockAct a = false)
    (hb1 : ∀ a ∈ b1, isLockAct a = false)
    {c : Cfg} (h : Reach (init k0 k1 b0 b1) c)
    (h0 : c.rem0 = []) (h1 : c.rem1 = []) :
    c.hist = tag false (cs k0 b0) ++ tag true (cs k1 b1) ∨
    c.hist = tag true (cs k1 b1) ++ tag false (cs k0 b0) := by
  rcases reach_inv hw hb0 hb1 h with hc | ⟨pre, rest, hsp, hc⟩ |
    ⟨pre, rest, hsp, hc⟩ | hc | hc | ⟨pre, rest, hsp, hc⟩ |
    ⟨pre, rest, hsp, hc⟩ | hc | hc <;> subst hc <;>
    simp [init, cs] at h0 h1 ⊢

end locking

namespace gopath

theorem toList_append (a b : String) :
    (a ++ b).toList = a.toList ++ b.toList := String.data_append a b

theorem splitSlashAux_no_slash (l : List Char) (acc : List Char)
    (hacc : ('/' : Char) ∉ acc) :
    ∀ p ∈ splitSlashAux l acc, ('/' : Char) ∉ p.toList := by
  induction l generalizing acc with
  | nil =>
    intro p hp
    simp only [splitSlashAux, List.mem_singleton] at hp
    subst hp
    simpa using hacc
  | cons c rest ih =>
    intro p hp
    by_cases hc : c = '/'
    · subst hc
      simp only [splitSlashAux, if_true, reduceIte, List.mem_cons] at hp
      rcases hp with hp | hp
      · subst hp; simpa using hacc
      · exact ih [] (by simp) p hp
    · simp only [splitSlashAux, hc, if_neg hc] at hp
      exact ih (c :: acc) (by simp [hc, hacc]; exact fun h => hc h.symm) p hp

theorem splitSlash_no_slash (s : String) :
    ∀ p ∈ splitSlash s, ('/' : Char) ∉ p.toList :=
  splitSlashAux_no_slash s.toList [] (by simp)

theorem splitSlashAux_append (l1 l2 : List Char) (acc : List Char) :
    splitSlashAux (l1 ++ '/' :: l2) acc =
      splitSlashAux l1 acc ++ splitSlashAux l2 [] := by
  induction l1 generalizing acc with
  | nil => simp [splitSlashAux]
  | cons c r ih =>
    by_cases hc : c = '/' <;> simp [splitSlashAux, hc, ih]

theorem splitSlash_append (a b : String) :
    splitSlash (a ++ "/" ++ b) = splitSlash a ++ splitSlash b := by
  unfold splitSlash
  have h : (a ++ "/" ++ b).toList = a.toList ++ '/' :: b.toList := by
    rw [toList_append, toList_append]
    have hs : ("/" : String).toList = ['/'] := rfl
    rw [hs, List.append_assoc]
    rfl
  rw [h, splitSlashAux_append]

theorem splitSlashAux_no_slash_eq (l : List Char) (acc : List Char)
    (hl : ('/' : Char) ∉ l) :
    splitSlashAux l acc = [String.mk (acc.reverse ++ l)] := by
  induction l generalizing acc with
  | nil => simp [splitSlashAux]
  | cons c r ih =>
    have hc : c ≠ '/' := fun h => hl (h ▸ List.mem_cons_self c r)
    have hr : ('/' : Char) ∉ r := fun h => hl (List.mem_cons_of_mem _ h)
    simp [splitSlashAux, hc, ih (c :: acc) hr]

theorem splitSlash_single (x : String) (hx : ('/' : Char) ∉ x.toList) :
    splitSlash x = [x] := by
  unfold splitSlash
  rw [splitSlashAux_no_slash_eq x.toList [] hx]
  simp

theorem splitSlash_joinSlash (l : List String)
    (h : ∀ c ∈ l, ('/' : Char) ∉ c.toList) (hl : l ≠ []) :
    splitSlash (joinSlash l) = l := by
  induction l with
  | nil => exact absurd rfl hl
  | cons x rest ih =>
    cases rest with
    | nil => exact splitSlash_single x (h x (by simp))
    | cons y r2 =>
      show splitSlash (x ++ "/" ++ joinSlash (y :: r2)) = x :: y :: r2
      rw [splitSlash_append, splitSlash_single x (h x (by simp)),
        ih (fun c hc => h c (List.mem_cons_of_mem _ hc)) (by simp)]
      rfl

theorem cleanStep_skip (r : Bool) (st : List String) :
    cleanStep r st "" = st := by simp [cleanStep]

theorem goodStack_nil (r : Bool) : GoodStack r [] :=
  ⟨[], [], by simp, by simp, by simp, fun _ => rfl⟩

theorem goodStack_step (r : Bool) (st : List String) (c : String)
    (hst : GoodStack r st) (hc : ('/' : Char) ∉ c.toList) :
    GoodStack r (cleanStep r st c) := by
  obtain ⟨ns, ds, rfl, hns, hds, hrds⟩ := hst
  by_cases h0 : c = "" ∨ c = "."
  · simpa [cleanStep, h0] using ⟨ns, ds, rfl, hns, hds, hrds⟩
  by_cases h2 : c = ".."
  · subst h2
    cases ns with
    | nil =>
      cases ds with
      | nil =>
        cases r with
        | false => exact ⟨[], [".."], by simp [cleanStep], by simp, by simp, by simp⟩
        | true => exact ⟨[], [], by simp [cleanStep], by simp, by simp, fun _ => rfl⟩
      | cons d ds2 =>
        have hd : d = ".." := hds d (by simp)
        have hr : r = false := by
          cases r with
          | false => rfl
          | true => simp [hrds rfl] at hds ⊢; exact absurd (hrds rfl) (by simp)
        subst hd
        refine ⟨[], ".." :: ".." :: ds2, by simp [cleanStep], by simp, ?_, by simp [hr]⟩
        intro x hx
        rcases List.mem_cons.mp hx with rfl | hx2
        · rfl
        · rcases List.mem_cons.mp hx2 with rfl | hx3
          · rfl
          · exact hds x (List.mem_cons_of_mem _ hx3)
    | cons n ns2 =>
      have hn : GoodName n := hns n (by simp)
      refine ⟨ns2, ds, ?_, fun x hx => hns x (List.mem_cons_of_mem _ hx), hds, hrds⟩
      simp [cleanStep, hn.2.2.1]
  · push_neg at h0
    refine ⟨c :: ns, ds, ?_, ?_, hds, hrds⟩
    · simp [cleanStep, h0.1, h0.2, h2]
    · intro x hx
      rcases List.mem_cons.mp hx with rfl | hx2
      · exact ⟨h0.1, h0.2, h2, hc⟩
      · exact hns x hx2

theorem foldl_goodStack (r : Bool) (cs : List String)
    (h : ∀ p ∈ cs, ('/' : Char) ∉ p.toList) (st : List String)
    (hst : GoodStack r st) :
    GoodStack r (cs.foldl (cleanStep r) st) := by
  induction cs generalizing st with
  | nil => exact hst
  | cons c rest ih =>
    exact ih (fun p hp => h p (List.mem_cons_of_mem _ hp)) _
      (goodStack_step r st c hst (h c (by simp)))

theorem stackOf_good (r : Bool) (cs : List String)
    (h : ∀ p ∈ cs, ('/' : Char) ∉ p.toList) :
    GoodStack r (stackOf r cs) :=
  foldl_goodStack r cs h [] (goodStack_nil r)

end gopath

namespace gopath

theorem fold_push (r : Bool) (ns : List String) (hns : ∀ c ∈ ns, GoodName c)
    (st : List String) :
    List.foldl (cleanStep r) st ns.reverse = ns ++ st := by
  induction ns generalizing st with
  | nil => rfl
  | cons a ns2 ih =>
    have ha : GoodName a := hns a (by simp)
    rw [List.reverse_cons, List.foldl_append,
      ih (fun c hc => hns c (List.mem_cons_of_mem _ hc)) st]
    show cleanStep r (ns2 ++ st) a = a :: ns2 ++ st
    simp [cleanStep, ha.1, ha.2.1, ha.2.2.1]

theorem dots_fold (m n : Nat) :
    List.foldl (cleanStep false) (List.replicate m "..")
      (List.replicate n "..") = List.replicate (n + m) ".." := by
  induction n generalizing m with
  | zero => simp
  | succ n ih =>
    rw [List.replicate_succ, List.foldl_cons]
    have hstep : cleanStep false (List.replicate m "..") ".." =
        List.replicate (m + 1) ".." := by
      cases m with
      | zero => simp [cleanStep]
      | succ k => simp [cleanStep, List.replicate_succ]
    rw [hstep, ih (m + 1)]
    congr 1
    omega

theorem refold (r : Bool) (st : List String) (hst : GoodStack r st) :
    List.foldl (cleanStep r) [] st.reverse = st := by
  obtain ⟨ns, ds, rfl, hns, hds, hrds⟩ := hst
  rw [List.reverse_append, List.foldl_append]
  cases r with
  | true =>
    rw [hrds rfl]
    simpa using fold_push true ns hns []
  | false =>
    have hdsrep : ds = List.replicate ds.length ".." := by
      rw [List.eq_replicate_iff]
      exact ⟨rfl, hds⟩
    have h1 : List.foldl (cleanStep false) [] ds.reverse = ds := by
      conv in ds.reverse => rw [hdsrep]
      rw [List.reverse_replicate]
      have := dots_fold 0 ds.length
      simpa using this.trans hdsrep.symm
    rw [h1, fold_push false ns hns ds]

theorem stackOf_splitSlash_clean (x : String) (hx : x ≠ "") :
    rooted (clean x) = rooted x ∧
    stackOf (rooted x) (splitSlash (clean x)) =
      stackOf (rooted x) (splitSlash x) := by
  have hgood : GoodStack (rooted x) (stackOf (rooted x) (splitSlash x)) :=
    stackOf_good (rooted x) (splitSlash x) (splitSlash_no_slash x)
  set st := stackOf (rooted x) (splitSlash x) with hstdef
  obtain ⟨ns, ds, hsplit, hns, hds, hrds⟩ := hgood
  have hcomps : ∀ c ∈ st, c ≠ "" ∧ ('/' : Char) ∉ c.toList := by
    intro c hc
    rw [hsplit] at hc
    rcases List.mem_append.mp hc with h | h
    · exact ⟨(hns c h).1, (hns c h).2.2.2⟩
    · rw [hds c h]; exact ⟨by simp, by simp⟩
  have hout : ∀ c ∈ st.reverse, c ≠ "" ∧ ('/' : Char) ∉ c.toList :=
    fun c hc => hcomps c (List.mem_reverse.mp hc)
  have hcleanx : clean x =
      (if rooted x then "/" ++ joinSlash st.reverse
       else if joinSlash st.reverse = "" then "." else joinSlash st.reverse) := by
    simp only [clean, if_neg hx, cleanParts, stackOf]
    rfl
  have hrefold : List.foldl (cleanStep (rooted x)) [] st.reverse = st :=
    refold (rooted x) st ⟨ns, ds, hsplit, hns, hds, hrds⟩
  by_cases hrevnil : st.reverse = []
  · -- the resolved path has no components
    have hstnil : st = [] := by
      have := congrArg List.reverse hrevnil
      simpa using this
    rw [hcleanx, hrevnil]
    cases hr : rooted x with
    | true =>
      refine ⟨?_, ?_⟩
      · show rooted ("/" ++ joinSlash []) = true
        rfl
      · show stackOf true (splitSlash ("/" ++ joinSlash [])) = st
        rw [hstnil]
        rfl
    | false =>
      refine ⟨?_, ?_⟩
      · show rooted (if joinSlash ([] : List String) = "" then "." else joinSlash []) = false
        rfl
      · show stackOf false (splitSlash (if joinSlash ([] : List String) = "" then "." else joinSlash [])) = st
        rw [hstnil]
        rfl
  · -- at least one resolved component
    have hjoin_ne : joinSlash st.reverse ≠ "" := by
      obtain ⟨o, os, hrev⟩ := List.exists_cons_of_ne_nil hrevnil
      have hogood := hout o (by rw [hrev]; simp)
      rw [hrev]
      cases os with
      | nil => exact hogood.1
      | cons p ps =>
        show o ++ "/" ++ joinSlash (p :: ps) ≠ ""
        intro hcontra
        have h2 : (o ++ "/" ++ joinSlash (p :: ps)).toList = [] := by
          rw [hcontra]; rfl
        rw [toList_append, toList_append] at h2
        simp at h2
    have hjs : splitSlash (joinSlash st.reverse) = st.reverse :=
      splitSlash_joinSlash st.reverse (fun c hc => (hout c hc).2) hrevnil
    have hroot_join : rooted (joinSlash st.reverse) = false := by
      obtain ⟨o, os, hrev⟩ := List.exists_cons_of_ne_nil hrevnil
      have hogood := hout o (by rw [hrev]; simp)
      have hotl : o.toList ≠ [] := by
        intro hcon
        apply hogood.1
        cases o with
        | mk d => simp only [String.toList] at hcon; simp [hcon]
      obtain ⟨ch, chs, hch⟩ := List.exists_cons_of_ne_nil hotl
      have hchne : ch ≠ '/' := by
        intro hcon
        exact hogood.2 (by rw [hch, hcon]; simp)
      rw [hrev]
      cases os with
      | nil =>
        show rooted (joinSlash [o]) = false
        simp only [joinSlash]
        unfold rooted
        rw [hch]
        simp [hchne]
      | cons p ps =>
        show rooted (o ++ "/" ++ joinSlash (p :: ps)) = false
        have htl : (o ++ "/" ++ joinSlash (p :: ps)).toList =
            ch :: (chs ++ '/' :: (joinSlash (p :: ps)).toList) := by
          rw [toList_append, toList_append, hch]
          simp
        unfold rooted
        rw [htl]
        simp [hchne]
    cases hr : rooted x with
    | true =>
      rw [hcleanx, hr, if_pos rfl]
      refine ⟨?_, ?_⟩
      · show rooted ("/" ++ joinSlash st.reverse) = true
        have htl : ("/" ++ joinSlash st.reverse).toList =
            '/' :: (joinSlash st.reverse).toList := by
          rw [toList_append]; rfl
        unfold rooted
        rw [htl]
        rfl
      · have hsplitcat : splitSlash ("/" ++ joinSlash st.reverse) =
            [""] ++ splitSlash (joinSlash st.reverse) := by
          have h9 : ("/" : String) ++ joinSlash st.reverse =
              "" ++ "/" ++ joinSlash st.reverse := by simp
          rw [h9, splitSlash_append]
          rfl
        rw [hsplitcat, hjs]
        show List.foldl (cleanStep true) [] ("" :: st.reverse) = st
        rw [List.foldl_cons, cleanStep_skip]
        rw [hr] at hrefold
        exact hrefold
    | false =>
      rw [hcleanx, hr]
      simp only [Bool.false_eq_true, if_false, if_neg hjoin_ne]
      refine ⟨hroot_join, ?_⟩
      rw [hjs]
      rw [hr] at hrefold
      exact hrefold

end gopath

namespace gopath

theorem clean_congr (x y : String) (hx : x ≠ "") (hy : y ≠ "")
    (hr : rooted x = rooted y)
    (hst : stackOf (rooted x) (splitSlash x) = stackOf (rooted y) (splitSlash y)) :
    clean x = clean y := by
  simp only [clean, if_neg hx, if_neg hy, cleanParts, stackOf] at *
  rw [hr] at hst ⊢
  rw [hst]

theorem clean_ne_empty (x : String) : clean x ≠ "" := by
  by_cases hx : x = ""
  · simp [clean, hx]
  · simp only [clean, if_neg hx]
    by_cases hr : rooted x = true
    · rw [if_pos hr]
      intro hcon
      have : ("/" ++ joinSlash (cleanParts (rooted x) (splitSlash x))).toList = [] := by
        rw [hcon]; rfl
      rw [toList_append] at this
      simp at this
    · rw [if_neg hr]
      by_cases hj : joinSlash (cleanParts (rooted x) (splitSlash x)) = ""
      · simp [hj]
      · simp [hj]

theorem rooted_append (a t : String) (ha : a ≠ "") :
    rooted (a ++ t) = rooted a := by
  have hatl : a.toList ≠ [] := by
    intro hcon
    apply ha
    cases a with
    | mk d => simp only [String.toList] at hcon; simp [hcon]
  obtain ⟨c, cs, hc⟩ := List.exists_cons_of_ne_nil hatl
  have htl : (a ++ t).toList = c :: (cs ++ t.toList) := by
    rw [toList_append, hc]; rfl
  unfold rooted
  rw [htl, hc]

theorem append_slash_ne (a y : String) : a ++ "/" ++ y ≠ "" := by
  intro hcon
  have : (a ++ "/" ++ y).toList = [] := by rw [hcon]; rfl
  rw [toList_append, toList_append] at this
  simp at this

theorem clean_append_clean (x y : String) (hx : x ≠ "") :
    clean (clean x ++ "/" ++ y) = clean (x ++ "/" ++ y) := by
  obtain ⟨hr, hst⟩ := stackOf_splitSlash_clean x hx
  have h1 : rooted (clean x ++ "/" ++ y) = rooted (clean x) := by
    rw [String.append_assoc]
    exact rooted_append _ _ (clean_ne_empty x)
  have h2 : rooted (x ++ "/" ++ y) = rooted x := by
    rw [String.append_assoc]
    exact rooted_append _ _ hx
  have hra : rooted (clean x ++ "/" ++ y) = rooted (x ++ "/" ++ y) := by
    rw [h1, h2, hr]
  apply clean_congr _ _ (append_slash_ne _ _) (append_slash_ne _ _) hra
  rw [hra, h2]
  show stackOf (rooted x) (splitSlash (clean x ++ "/" ++ y)) =
    stackOf (rooted x) (splitSlash (x ++ "/" ++ y))
  rw [splitSlash_append, splitSlash_append]
  show List.foldl (cleanStep (rooted x)) []
      (splitSlash (clean x) ++ splitSlash y) =
    List.foldl (cleanStep (rooted x)) [] (splitSlash x ++ splitSlash y)
  simp only [stackOf] at hst
  rw [List.foldl_append, List.foldl_append, hst]

theorem clean_idem (x : String) (hx : x ≠ "") : clean (clean x) = clean x := by
  obtain ⟨hr, hst⟩ := stackOf_splitSlash_clean x hx
  apply clean_congr _ _ (clean_ne_empty x) hx hr
  rw [hr]
  exact hst

theorem joinSlash_ne_empty (l : List String) (hl : l ≠ [])
    (h : ∀ c ∈ l, c ≠ "") : joinSlash l ≠ "" := by
  obtain ⟨o, os, rfl⟩ := List.exists_cons_of_ne_nil hl
  cases os with
  | nil => exact h o (by simp)
  | cons p ps => exact append_slash_ne o (joinSlash (p :: ps))

theorem joinSlash_append_single (l : List String) (c : String) (hl : l ≠ []) :
    joinSlash (l ++ [c]) = joinSlash l ++ "/" ++ c := by
  induction l with
  | nil => exact absurd rfl hl
  | cons x rest ih =>
    cases rest with
    | nil => rfl
    | cons y r2 =>
      show x ++ "/" ++ joinSlash ((y :: r2) ++ [c]) =
        (x ++ "/" ++ joinSlash (y :: r2)) ++ "/" ++ c
      rw [ih (by simp)]
      simp [String.append_assoc]

theorem join_of_filter_ne_nil (elems : List String)
    (hne : elems.filter (fun e => e ≠ "") ≠ []) :
    join elems = clean (joinSlash (elems.filter (fun e => e ≠ ""))) := by
  obtain ⟨o, os, heq⟩ := List.exists_cons_of_ne_nil hne
  simp only [join]
  rw [heq]
  rfl

/-- `filepath.Join` is compositional: joining pairwise equals joining all
three elements at once. -/
theorem join2_join2 (a b c : String) : join2 (join2 a b) c = join3 a b c := by
  by_cases hab : a = "" ∧ b = ""
  · obtain ⟨ha, hb⟩ := hab
    subst ha; subst hb
    by_cases hc : c = ""
    · subst hc; rfl
    · show join [join ["", ""], c] = join ["", "", c]
      have h1 : join ["", ""] = "" := rfl
      rw [h1]
      have h2 : ["", "", c].filter (fun e => e ≠ "") = [c] := by simp [hc]
      have h3 : ("" :: [c]).filter (fun e => e ≠ "") = [c] := by simp [hc]
      rw [join_of_filter_ne_nil _ (by rw [h3]; simp),
          join_of_filter_ne_nil _ (by rw [h2]; simp)]
      rw [h2, h3]
  · have hl : [a, b].filter (fun e => e ≠ "") ≠ [] := by
      by_cases ha : a = "" <;> by_cases hb : b = "" <;> simp_all
    set l := [a, b].filter (fun e => e ≠ "") with hldef
    have hcomp : ∀ e ∈ l, e ≠ "" := by
      intro e he
      have := List.of_mem_filter he
      simpa using this
    have hjlne : joinSlash l ≠ "" := joinSlash_ne_empty l hl hcomp
    have hj1 : join2 a b = clean (joinSlash l) := join_of_filter_ne_nil [a, b] hl
    have hj2ne : join2 a b ≠ "" := by rw [hj1]; exact clean_ne_empty _
    by_cases hc : c = ""
    · subst hc
      have hfc : [a, b, ""].filter (fun e => e ≠ "") = l := by
        rw [hldef]
        by_cases ha : a = "" <;> by_cases hb : b = "" <;> simp_all
      have hfj : [join2 a b, ""].filter (fun e => e ≠ "") = [join2 a b] := by
        simp [hj2ne]
      show join [join2 a b, ""] = join [a, b, ""]
      rw [join_of_filter_ne_nil [join2 a b, ""] (by rw [hfj]; simp),
          join_of_filter_ne_nil [a, b, ""] (by rw [hfc]; exact hl)]
      rw [hfj, hfc]
      show clean (join2 a b) = clean (joinSlash l)
      rw [hj1]
      exact clean_idem _ hjlne
    · have hfc : [a, b, c].filter (fun e => e ≠ "") = l ++ [c] := by
        rw [hldef]
        by_cases ha : a = "" <;> by_cases hb : b = "" <;> simp_all
      have hfj : [join2 a b, c].filter (fun e => e ≠ "") = [join2 a b, c] := by
        simp [hj2ne, hc]
      show join [join2 a b, c] = join [a, b, c]
      rw [join_of_filter_ne_nil [join2 a b, c] (by rw [hfj]; simp),
          join_of_filter_ne_nil [a, b, c] (by rw [hfc]; simp)]
      rw [hfj, hfc]
      rw [joinSlash_append_single l c hl]
      show clean (join2 a b ++ "/" ++ c) = clean (joinSlash l ++ "/" ++ c)
      rw [hj1]
      exact clean_append_clean (joinSlash l) c hjlne

end gopath

namespace hooks

theorem attemptLoop_spec (res : AttemptOracle) :
    ∀ (r : Nat) (i : Nat), 1 ≤ r →
    (1 ≤ (attemptLoop res i r).attempts ∧ (attemptLoop res i r).attempts ≤ r) ∧
    (attemptLoop res i r).sleeps =
      (if i = 0 then List.range' 1 ((attemptLoop res i r).attempts - 1)
       else List.range' i (attemptLoop res i r).attempts) ∧
    (∀ j, j + 1 < (attemptLoop res i r).attempts → res (i + j) ≠ none) ∧
    (attemptLoop res i r).lastErr = res (i + ((attemptLoop res i r).attempts - 1)) ∧
    ((attemptLoop res i r).lastErr ≠ none → (attemptLoop res i r).attempts = r) := by
  intro r
  induction r with
  | zero => intro i h; omega
  | succ r ih =>
    intro i _
    cases hres : res i with
    | none =>
      simp only [attemptLoop, hres]
      refine ⟨⟨le_refl 1, by omega⟩, ?_, ?_, ?_, ?_⟩
      · by_cases hi : i = 0 <;> simp [hi, List.range'_one]
      · intro j hj; omega
      · simpa using hres.symm
      · intro h; exact absurd rfl h
    | some e =>
      cases hr0 : r with
      | zero =>
        simp only [attemptLoop, hres, reduceIte]
        refine ⟨⟨le_refl 1, by omega⟩, ?_, ?_, ?_, ?_⟩
        · by_cases hi : i = 0 <;> simp [hi, List.range'_one]
        · intro j hj; omega
        · simpa using hres.symm
        · intro _; simp
      | succ r2 =>
        have hrpos : 1 ≤ r := by omega
        obtain ⟨⟨hat1, hat2⟩, hsl, hfail, hlast, hexh⟩ := ih (i + 1) hrpos
        rw [← hr0]
        simp only [attemptLoop, hres, if_neg (by omega : ¬r = 0)]
        set rest := attemptLoop res (i + 1) r with hrest
        refine ⟨⟨by omega, by omega⟩, ?_, ?_, ?_, ?_⟩
        · -- sleeps
          rw [hsl, if_neg (by omega : ¬i + 1 = 0)]
          by_cases hi : i = 0
          · subst hi
            simp only [reduceIte]
            show [] ++ List.range' 1 rest.attempts = _
            rw [List.nil_append]
            congr 1
          · simp only [if_neg hi]
            show [i] ++ List.range' (i + 1) rest.attempts = List.range' i (rest.attempts + 1)
            rw [List.range'_succ]
            rfl
        · -- all attempts before the last one failed
          intro j hj
          cases j with
          | zero => simpa using Option.ne_none_iff_exists.mpr ⟨e, hres.symm⟩
          | succ j2 =>
            have := hfail j2 (by simp at hj ⊢; omega)
            simpa [Nat.add_assoc, Nat.add_comm, Nat.add_left_comm] using this
        · -- lastErr is the result of the final attempt
          rw [hlast]
          congr 1
          omega
        · -- exhaustion: a final error means every attempt ran
          intro h
          have := hexh h
          omega

/-- `maxRetries` agrees with the specification formula `max(retry, 1)`. -/
theorem maxRetries_eq_max (h : Hook) : maxRetries h = (max h.retry 1).toNat := by
  unfold maxRetries
  rcases le_or_lt h.retry 0 with hle | hlt
  · rw [if_pos hle, max_eq_right (by omega : h.retry ≤ 1)]
    rfl
  · rw [if_neg (by omega), max_eq_left (by omega : (1 : Int) ≤ h.retry)]

theorem range_drop_one (n : Nat) (hn : 1 ≤ n) :
    (List.range n).drop 1 = List.range' 1 (n - 1) := by
  obtain ⟨m, rfl⟩ : ∃ m, n = m + 1 := ⟨n - 1, by omega⟩
  rw [List.range_eq_range', List.range'_succ]
  simp

end hooks

namespace service

theorem sortEnv_perm (env : List (String × String)) :
    List.Perm (sortEnv env) env :=
  List.perm_insertionSort keyLe env

theorem sortEnv_eq_of_perm (e1 e2 : List (String × String))
    (hperm : List.Perm e1 e2) (hkeys : (e1.map Prod.fst).Nodup) :
    sortEnv e1 = sortEnv e2 := by
  have hp1 : List.Perm (sortEnv e1) e1 := sortEnv_perm e1
  have hp2 : List.Perm (sortEnv e2) e2 := sortEnv_perm e2
  have hperm12 : List.Perm (sortEnv e1) (sortEnv e2) :=
    (hp1.trans hperm).trans hp2.symm
  have hs1 : List.Sorted keyLe (sortEnv e1) := List.sorted_insertionSort keyLe e1
  have hs2 : List.Sorted keyLe (sortEnv e2) := List.sorted_insertionSort keyLe e2
  have hne1 : List.Pairwise (fun a b : String × String => a.1 ≠ b.1) e1 :=
    List.pairwise_map.mp hkeys
  have hne1s : List.Pairwise (fun a b : String × String => a.1 ≠ b.1) (sortEnv e1) :=
    (hp1.pairwise_iff (fun hne => hne.symm)).mpr hne1
  have hne2s : List.Pairwise (fun a b : String × String => a.1 ≠ b.1) (sortEnv e2) :=
    (hperm12.pairwise_iff (fun hne => hne.symm)).mp hne1s
  have hlt1 : List.Sorted keyLt (sortEnv e1) := by
    refine (hs1.and hne1s).imp ?_
    intro a b hab
    exact lt_of_le_of_ne hab.1 hab.2
  have hlt2 : List.Sorted keyLt (sortEnv e2) := by
    refine (hs2.and hne2s).imp ?_
    intro a b hab
    exact lt_of_le_of_ne hab.1 hab.2
  exact List.eq_of_perm_of_sorted hperm12 hlt1 hlt2

end service

namespace service

theorem DeployRest_shape (req : DeployRequest) (w : World) (sd ld : String) :
    (∃ e, DeployRest req w sd ld = (some (.error e), [.urlCheck req.packageURL])) ∨
    (∃ e, DeployRest req w sd ld =
      (some (.error e), [.urlCheck req.packageURL, .fetch req.packageURL sd])) ∨
    (∃ folders e, w.fetchResult = .ok folders ∧
      artifact.GetFirstFolder folders ≠ "" ∧
      DeployRest req w sd ld = (some (.error e),
        [.urlCheck req.packageURL, .fetch req.packageURL sd,
         .writeUnit ("/etc/systemd/system/" ++ req.service ++ ".service")
           (unitContent req sd ld (artifact.GetFirstFolder folders))])) ∨
    (∃ folders e, w.fetchResult = .ok folders ∧
      artifact.GetFirstFolder folders ≠ "" ∧
      DeployRest req w sd ld = (some (.error e),
        [.urlCheck req.packageURL, .fetch req.packageURL sd,
         .writeUnit ("/etc/systemd/system/" ++ req.service ++ ".service")
           (unitContent req sd ld (artifact.GetFirstFolder folders)),
         .reloadDaemon])) ∨
    (∃ folders e, w.fetchResult = .ok folders ∧
      artifact.GetFirstFolder folders ≠ "" ∧
      DeployRest req w sd ld = (some (.error e),
        [.urlCheck req.packageURL, .fetch req.packageURL sd,
         .writeUnit ("/etc/systemd/system/" ++ req.service ++ ".service")
           (unitContent req sd ld (artifact.GetFirstFolder folders)),
         .reloadDaemon, .enableUnit req.service])) ∨
    (∃ folders e, w.fetchResult = .ok folders ∧
      artifact.GetFirstFolder folders ≠ "" ∧
      DeployRest req w sd ld = (some (.error e),
        [.urlCheck req.packageURL, .fetch req.packageURL sd,
         .writeUnit ("/etc/systemd/system/" ++ req.service ++ ".service")
           (unitContent req sd ld (artifact.GetFirstFolder folders)),
         .reloadDaemon, .enableUnit req.service, .startUnit req.service])) ∨
    (∃ folders, w.fetchResult = .ok folders ∧
      artifact.GetFirstFolder folders ≠ "" ∧
      w.writeErr = none ∧ w.reloadErr = none ∧ w.enableErr = none ∧
      w.startErr = none ∧ postCall req w = none ∧
      DeployRest req w sd ld = (none,
        [.urlCheck req.packageURL, .fetch req.packageURL sd,
         .writeUnit ("/etc/systemd/system/" ++ req.service ++ ".service")
           (unitContent req sd ld (artifact.GetFirstFolder folders)),
         .reloadDaemon, .enableUnit req.service, .startUnit req.service]
        ++ (postEvents req w).map (Effect.hookRun "post_start"))) ∨
    (∃ folders, w.fetchResult = .ok folders ∧
      artifact.GetFirstFolder folders ≠ "" ∧
      w.writeErr = none ∧ w.reloadErr = none ∧ w.enableErr = none ∧
      w.startErr = none ∧
      DeployRest req w sd ld = (some (.ok ()),
        [.urlCheck req.packageURL, .fetch req.packageURL sd,
         .writeUnit ("/etc/systemd/system/" ++ req.service ++ ".service")
           (unitContent req sd ld (artifact.GetFirstFolder folders)),
         .reloadDaemon, .enableUnit req.service, .startUnit req.service]
        ++ (postEvents req w).map (Effect.hookRun "post_start"))) := by
  unfold DeployRest
  cases hu : artifact.ValidateURL req.packageURL with
  | error e => exact Or.inl ⟨_, rfl⟩
  | ok u =>
    cases hfe : w.fetchResult with
    | error e => exact Or.inr (Or.inl ⟨_, rfl⟩)
    | ok folders =>
      dsimp only
      by_cases hfold : artifact.GetFirstFolder folders = ""
      · rw [if_pos hfold]
        exact Or.inr (Or.inl ⟨_, rfl⟩)
      · rw [if_neg hfold]
        cases hw : w.writeErr with
        | some e =>
          exact Or.inr (Or.inr (Or.inl ⟨folders, _, rfl, hfold, rfl⟩))
        | none =>
          cases hr : w.reloadErr with
          | some e =>
            exact Or.inr (Or.inr (Or.inr (Or.inl ⟨folders, _, rfl, hfold, rfl⟩)))
          | none =>
            cases he : w.enableErr with
            | some e =>
              exact Or.inr (Or.inr (Or.inr (Or.inr (Or.inl
                ⟨folders, _, rfl, hfold, rfl⟩))))
            | none =>
              cases hs : w.startErr with
              | some e =>
                exact Or.inr (Or.inr (Or.inr (Or.inr (Or.inr (Or.inl
                  ⟨folders, _, rfl, hfold, rfl⟩)))))
              | none =>
                cases hpc : postCall req w with
                | none =>
                  exact Or.inr (Or.inr (Or.inr (Or.inr (Or.inr (Or.inr (Or.inl
                    ⟨folders, rfl, hfold, rfl, rfl, rfl, rfl, rfl, rfl⟩))))))
                | some evs =>
                  exact Or.inr (Or.inr (Or.inr (Or.inr (Or.inr (Or.inr (Or.inr
                    ⟨folders, rfl, hfold, rfl, rfl, rfl, rfl, rfl⟩))))))

theorem Deploy_shape (wd : String) (req : DeployRequest) (w : World) :
    (∃ e, Deploy wd req w = (some (.error e), [])) ∨
    (∃ e, Deploy wd req w = (some (.error e), [.ensureServiceDir req.service])) ∨
    (∃ e, Deploy wd req w =
      (some (.error e), [.ensureServiceDir req.service, .ensureLogDir req.service])) ∨
    (preCall req w = none ∧ Deploy wd req w = (none, preBase req w)) ∨
    (∃ ev, (preEvents req w).find? (fun ev => ev.status == "failure") = some ev ∧
      Deploy wd req w =
        (some (.error ("pre-start hook failed: " ++ ev.error)), preBase req w)) ∨
    ((preEvents req w).find? (fun ev => ev.status == "failure") = none ∧
      Deploy wd req w =
        ((DeployRest req w (gopath.join3 wd "services" req.service)
            (gopath.join3 wd "logs" req.service)).1,
         preBase req w ++
           (DeployRest req w (gopath.join3 wd "services" req.service)
             (gopath.join3 wd "logs" req.service)).2)) := by
  unfold Deploy
  cases hv : validator.ValidateServiceName req.service with
  | error e => exact Or.inl ⟨_, rfl⟩
  | ok u =>
    cases hm1 : w.mkdirServiceDirErr with
    | some e => exact Or.inr (Or.inl ⟨_, rfl⟩)
    | none =>
      cases hm2 : w.mkdirLogDirErr with
      | some e => exact Or.inr (Or.inr (Or.inl ⟨_, rfl⟩))
      | none =>
        cases hpc : preCall req w with
        | none => exact Or.inr (Or.inr (Or.inr (Or.inl ⟨rfl, rfl⟩)))
        | some evs =>
          cases hf : (preEvents req w).find? (fun ev => ev.status == "failure") with
          | some ev => exact Or.inr (Or.inr (Or.inr (Or.inr (Or.inl ⟨ev, rfl, rfl⟩))))
          | none => exact Or.inr (Or.inr (Or.inr (Or.inr (Or.inr ⟨rfl, rfl⟩))))

end service

namespace service

theorem prefix_lift (A : List Effect) {t S : List Effect} (h : t <+: S) :
    A ++ t <+: A ++ S := by
  obtain ⟨u, hu⟩ := h
  exact ⟨u, by rw [List.append_assoc, hu]⟩

set_option maxHeartbeats 1000000 in
theorem Deploy_front (wd : String) (req : DeployRequest) (w : World) :
    (Deploy wd req w).2 <+: FullTrace wd req w := by
  have hbase : ∀ X : List Effect, preBase req w ++ X =
      Effect.ensureServiceDir req.service :: Effect.ensureLogDir req.service ::
        ((preEvents req w).map (Effect.hookRun "pre_start") ++ X) := by
    intro X
    simp [preBase]
  rcases Deploy_shape wd req w with
    ⟨e, h⟩ | ⟨e, h⟩ | ⟨e, h⟩ | ⟨hpc, h⟩ | ⟨ev, hf, h⟩ | ⟨hf, h⟩ <;>
    rw [show (Deploy wd req w).2 = (Prod.snd (Deploy wd req w)) from rfl, h]
  · exact List.nil_prefix
  · simp only [FullTrace]
    rw [List.append_assoc, hbase]
    exact ⟨_, rfl⟩
  · simp only [FullTrace]
    rw [List.append_assoc, hbase]
    exact ⟨_, rfl⟩
  · simp only [FullTrace]
    rw [List.append_assoc]
    exact List.prefix_append _ _
  · simp only [FullTrace]
    rw [List.append_assoc]
    exact List.prefix_append _ _
  · simp only [FullTrace]
    rw [List.append_assoc]
    apply prefix_lift
    rcases DeployRest_shape req w (gopath.join3 wd "services" req.service)
        (gopath.join3 wd "logs" req.service) with
      ⟨e, h2⟩ | ⟨e, h2⟩ | ⟨folders, e, hfe, hfold, h2⟩ | ⟨folders, e, hfe, hfold, h2⟩ |
      ⟨folders, e, hfe, hfold, h2⟩ | ⟨folders, e, hfe, hfold, h2⟩ |
      ⟨folders, hfe, hfold, hw, hr, he, hs, hpc, h2⟩ |
      ⟨folders, hfe, hfold, hw, hr, he, hs, h2⟩ <;>
      rw [show (DeployRest req w (gopath.join3 wd "services" req.service)
        (gopath.join3 wd "logs" req.service)).2 =
        (Prod.snd (DeployRest req w (gopath.join3 wd "services" req.service)
          (gopath.join3 wd "logs" req.service))) from rfl, h2] <;>
      try rw [hfe]
    all_goals exact ⟨_, rfl⟩

end service

namespace service

theorem pairwise_of_forall_rel {α : Type} {R : α → α → Prop}
    (h : ∀ a b, R a b) (l : List α) : l.Pairwise R := by
  induction l with
  | nil => exact List.Pairwise.nil
  | cons a t ih => exact List.Pairwise.cons (fun b _ => h a b) ih

theorem stageOf_preHook (ev : hooks.HookEvent) :
    stageOf (Effect.hookRun "pre_start" ev) = 1 := rfl

theorem stageOf_postHook (ev : hooks.HookEvent) :
    stageOf (Effect.hookRun "post_start" ev) = 7 := rfl

theorem preBase_stage (req : DeployRequest) (w : World) :
    ∀ e ∈ preBase req w, stageOf e ≤ 1 := by
  intro e he
  simp only [preBase, List.cons_append, List.nil_append, List.mem_cons,
    List.mem_map] at he
  rcases he with rfl | rfl | ⟨ev, _, rfl⟩
  · simp [stageOf]
  · simp [stageOf]
  · rw [stageOf_preHook]

theorem preBase_pairwise (req : DeployRequest) (w : World) :
    List.Pairwise stageLe (preBase req w) := by
  unfold preBase
  rw [List.pairwise_append]
  refine ⟨?_, ?_, ?_⟩
  · refine List.Pairwise.cons ?_ (List.Pairwise.cons (by simp) List.Pairwise.nil)
    intro b hb
    rcases List.mem_cons.mp hb with rfl | hb2
    · exact le_refl _
    · simp at hb2
  · apply List.pairwise_map.mpr
    apply pairwise_of_forall_rel
    intro a b
    show stageOf _ ≤ stageOf _
    rw [stageOf_preHook, stageOf_preHook]
  · intro a ha b hb
    rcases List.mem_map.mp hb with ⟨ev, _, rfl⟩
    show stageOf a ≤ stageOf (Effect.hookRun "pre_start" ev)
    rw [stageOf_preHook]
    rcases List.mem_cons.mp ha with rfl | ha2
    · simp [stageOf]
    · rcases List.mem_cons.mp ha2 with rfl | ha3
      · simp [stageOf]
      · simp at ha3

theorem six_pairwise (u sd p c n : String) :
    List.Pairwise stageLe
      [Effect.urlCheck u, Effect.fetch u sd, Effect.writeUnit p c,
       Effect.reloadDaemon, Effect.enableUnit n, Effect.startUnit n] := by
  simp [List.pairwise_cons, stageLe, stageOf]

theorem FullTrace_pairwise (wd : String) (req : DeployRequest) (w : World) :
    List.Pairwise stageLe (FullTrace wd req w) := by
  simp only [FullTrace]
  rw [List.pairwise_append]
  refine ⟨?_, ?_, ?_⟩
  · rw [List.pairwise_append]
    refine ⟨preBase_pairwise req w, six_pairwise _ _ _ _ _, ?_⟩
    intro a ha b hb
    have h1 := preBase_stage req w a ha
    show stageOf a ≤ stageOf b
    have h2 : 2 ≤ stageOf b := by
      rcases List.mem_cons.mp hb with rfl | hb
      · simp [stageOf]
      · rcases List.mem_cons.mp hb with rfl | hb
        · simp [stageOf]
        · rcases List.mem_cons.mp hb with rfl | hb
          · simp [stageOf]
          · rcases List.mem_cons.mp hb with rfl | hb
            · simp [stageOf]
            · rcases List.mem_cons.mp hb with rfl | hb
              · simp [stageOf]
              · rcases List.mem_cons.mp hb with rfl | hb
                · simp [stageOf]
                · simp at hb
    omega
  · apply List.pairwise_map.mpr
    apply pairwise_of_forall_rel
    intro a b
    show stageOf _ ≤ stageOf _
    rw [stageOf_postHook, stageOf_postHook]
  · intro a ha b hb
    rcases List.mem_map.mp hb with ⟨ev, _, rfl⟩
    show stageOf a ≤ stageOf (Effect.hookRun "post_start" ev)
    rw [stageOf_postHook]
    rcases List.mem_append.mp ha with ha1 | ha2
    · have := preBase_stage req w a ha1
      omega
    · rcases List.mem_cons.mp ha2 with rfl | hb
      · simp [stageOf]
      · rcases List.mem_cons.mp hb with rfl | hb
        · simp [stageOf]
        · rcases List.mem_cons.mp hb with rfl | hb
          · simp [stageOf]
          · rcases List.mem_cons.mp hb with rfl | hb
            · simp [stageOf]
            · rcases List.mem_cons.mp hb with rfl | hb
              · simp [stageOf]
              · rcases List.mem_cons.mp hb with rfl | hb
                · simp [stageOf]
                · simp at hb

theorem Deploy_stage_pairwise (wd : String) (req : DeployRequest) (w : World) :
    List.Pairwise stageLe (Deploy wd req w).2 :=
  (FullTrace_pairwise wd req w).sublist (Deploy_front wd req w).sublist

theorem allBefore_of_stage (tr : List Effect)
    (hsort : List.Pairwise stageLe tr) (p q : Effect → Bool)
    (hpq : ∀ a b, p a = true → q b = true → stageOf a < stageOf b) :
    allBefore p q tr := by
  intro i j hi hj hp hq
  by_contra hij
  push_neg at hij
  rcases Nat.eq_or_lt_of_le hij with heq | hlt
  · have hget : tr.get ⟨i, hi⟩ = tr.get ⟨j, hj⟩ := by
      congr 1
      exact Fin.ext heq.symm
    have := hpq _ _ hp (hget ▸ hq)
    rw [hget] at this
    omega
  · have hle := List.pairwise_iff_get.mp hsort ⟨j, hj⟩ ⟨i, hi⟩ hlt
    have hlt2 := hpq _ _ hp hq
    unfold stageLe at hle
    omega

end service

namespace service

theorem preBase_effects (req : DeployRequest) (w : World) :
    ∀ e ∈ preBase req w, isWrite e = false ∧ isReload e = false ∧
      isEnable e = false ∧ isStart e = false := by
  intro e he
  simp only [preBase, List.cons_append, List.nil_append, List.mem_cons,
    List.mem_map] at he
  rcases he with rfl | rfl | ⟨ev, _, rfl⟩ <;>
    exact ⟨rfl, rfl, rfl, rfl⟩

end service

namespace hooks

theorem ExecuteHooks_le_one (hs : List Hook) (phase sname : String)
    (res : PhaseOracle) (hlen : (syncSelected hs phase).length ≤ 1) :
    ExecuteHooks hs phase sname res =
      some ((syncExecuted hs phase).map
        (fun p => (ExecuteHook p.2 sname (res p.1)).event)) := by
  unfold ExecuteHooks syncExecuted
  cases hsl : syncSelected hs phase with
  | nil => rfl
  | cons p t =>
    cases t with
    | nil => rfl
    | cons q t2 => rw [hsl] at hlen; simp at hlen

theorem ExecuteHooks_ge_two (hs : List Hook) (phase sname : String)
    (res : PhaseOracle) (hlen : 2 ≤ (syncSelected hs phase).length) :
    ExecuteHooks hs phase sname res = none := by
  unfold ExecuteHooks
  cases hsl : syncSelected hs phase with
  | nil => rw [hsl] at hlen; simp at hlen
  | cons p t =>
    cases t with
    | nil => rw [hsl] at hlen; simp at hlen
    | cons q t2 => rfl

end hooks

namespace service

theorem preCall_some_of_le_one (req : DeployRequest) (w : World)
    (hlen : (hooks.syncSelected req.hooks "pre_start").length ≤ 1) :
    preCall req w = some (preEvents req w) := by
  unfold preCall preEvents
  by_cases hnil : req.hooks = []
  · simp [hnil, hooks.syncExecuted, hooks.syncSelected]
  · rw [if_pos hnil]
    exact hooks.ExecuteHooks_le_one req.hooks "pre_start" req.service w.preRes hlen

theorem postCall_some_of_le_one (req : DeployRequest) (w : World)
    (hlen : (hooks.syncSelected req.hooks "post_start").length ≤ 1) :
    postCall req w = some (postEvents req w) := by
  unfold postCall postEvents
  by_cases hnil : req.hooks = []
  · simp [hnil, hooks.syncExecuted, hooks.syncSelected]
  · rw [if_pos hnil]
    exact hooks.ExecuteHooks_le_one req.hooks "post_start" req.service w.postRes hlen

theorem postCall_none_of_ge_two (req : DeployRequest) (w : World)
    (hlen : 2 ≤ (hooks.syncSelected req.hooks "post_start").length) :
    postCall req w = none := by
  have hnil : req.hooks ≠ [] := by
    intro hn
    rw [hn] at hlen
    simp [hooks.syncSelected, List.enum] at hlen
  unfold postCall
  rw [if_pos hnil]
  exact hooks.ExecuteHooks_ge_two req.hooks "post_start" req.service w.postRes hlen

end service

/-- C1 (amended): the gate only sees enabled SYNCHRONOUS pre_start
hooks, and only in the regime where the hook phase call returns at all.
When exactly one such hook is selected and its execution reports status
"failure", `Deploy` returns an error and performs none of the later side
effects: no unit-file write, no daemon reload, no enable-unit and no
start call appear in the trace.  When two or more synchronous pre_start
hooks are selected, `Deploy` does not return an error — it never returns
at all: the `ExecuteHooks` channel exchange deadlocks after the first
hook runs (still performing none of the later side effects).  The
original claim, quantifying over async hooks as well, is refuted by
`C1_counterexample`. -/
theorem C1_pre_start_hook_gates_deploy (wd : String)
    (req : service.DeployRequest) (w : service.World) (i : Nat) (h : hooks.Hook)
    (hsel : hooks.syncSelected req.hooks "pre_start" = [(i, h)])
    (hstat : (hooks.ExecuteHook h req.service (w.preRes i)).event.status = "failure") :
    ((∃ e, (service.Deploy wd req w).1 = some (.error e)) ∧
     ∀ ef ∈ (service.Deploy wd req w).2,
       service.isWrite ef = false ∧ service.isReload ef = false ∧
       service.isEnable ef = false ∧ service.isStart ef = false) ∧
    (∀ wd2 : String, ∀ req2 : service.DeployRequest, ∀ w2 : service.World,
      2 ≤ (hooks.syncSelected req2.hooks "pre_start").length →
      validator.ValidateServiceName req2.service = .ok () →
      w2.mkdirServiceDirErr = none → w2.mkdirLogDirErr = none →
      (service.Deploy wd2 req2 w2).1 = none ∧
      ∀ ef ∈ (service.Deploy wd2 req2 w2).2,
        service.isWrite ef = false ∧ service.isReload ef = false ∧
        service.isEnable ef = false ∧ service.isStart ef = false) := by
  constructor
  · have hne : req.hooks ≠ [] := by
      intro hnil
      rw [hnil] at hsel
      simp [hooks.syncSelected] at hsel
    have hpc : service.preCall req w =
        some [(hooks.ExecuteHook h req.service (w.preRes i)).event] := by
      simp only [service.preCall, if_pos hne, hooks.ExecuteHooks, hsel]
    have hev : ∃ ev ∈ service.preEvents req w, (ev.status == "failure") = true := by
      refine ⟨(hooks.ExecuteHook h req.service (w.preRes i)).event, ?_, by simp [hstat]⟩
      simp only [service.preEvents, hooks.syncExecuted, hsel, List.take, List.map]
      exact List.mem_singleton.mpr rfl
    have hfind : (service.preEvents req w).find?
        (fun ev => ev.status == "failure") ≠ none := by
      intro hnone
      obtain ⟨ev, hmem, hev2⟩ := hev
      exact absurd hev2 (by simpa using List.find?_eq_none.mp hnone ev hmem)
    rcases service.Deploy_shape wd req w with
      ⟨e, hD⟩ | ⟨e, hD⟩ | ⟨e, hD⟩ | ⟨hpcn, hD⟩ | ⟨ev, hf, hD⟩ | ⟨hf, hD⟩
    · refine ⟨⟨e, by rw [hD]⟩, ?_⟩
      rw [show (service.Deploy wd req w).2 = (Prod.snd (service.Deploy wd req w)) from rfl, hD]
      intro ef hef
      simp at hef
    · refine ⟨⟨e, by rw [hD]⟩, ?_⟩
      rw [show (service.Deploy wd req w).2 = (Prod.snd (service.Deploy wd req w)) from rfl, hD]
      intro ef hef
      rcases List.mem_singleton.mp hef with rfl
      exact ⟨rfl, rfl, rfl, rfl⟩
    · refine ⟨⟨e, by rw [hD]⟩, ?_⟩
      rw [show (service.Deploy wd req w).2 = (Prod.snd (service.Deploy wd req w)) from rfl, hD]
      intro ef hef
      rcases List.mem_cons.mp hef with rfl | hef2
      · exact ⟨rfl, rfl, rfl, rfl⟩
      · rcases List.mem_singleton.mp hef2 with rfl
        exact ⟨rfl, rfl, rfl, rfl⟩
    · rw [hpc] at hpcn
      exact absurd hpcn (by simp)
    · refine ⟨⟨_, by rw [hD]⟩, ?_⟩
      rw [show (service.Deploy wd req w).2 = (Prod.snd (service.Deploy wd req w)) from rfl, hD]
      exact service.preBase_effects req w
    · exact absurd hf hfind
  · intro wd2 req2 w2 hlen hv hm1 hm2
    have hpc : service.preCall req2 w2 = none := by
      have hne : req2.hooks ≠ [] := by
        intro hnil
        rw [hnil] at hlen
        simp [hooks.syncSelected] at hlen
      simp only [service.preCall, if_pos hne, hooks.ExecuteHooks]
      cases hsl : hooks.syncSelected req2.hooks "pre_start" with
      | nil => rw [hsl] at hlen; simp at hlen
      | cons p t =>
        cases t with
        | nil => rw [hsl] at hlen; simp at hlen
        | cons q t2 => rfl
    have hD : service.Deploy wd2 req2 w2 = (none, service.preBase req2 w2) := by
      unfold service.Deploy
      simp only [hv, hm1, hm2, hpc]
    refine ⟨by rw [show (service.Deploy wd2 req2 w2).1 =
        (Prod.fst (service.Deploy wd2 req2 w2)) from rfl, hD], ?_⟩
    rw [show (service.Deploy wd2 req2 w2).2 =
        (Prod.snd (service.Deploy wd2 req2 w2)) from rfl, hD]
    exact service.preBase_effects req2 w2

/-- C1 counterexample: a deploy request whose only hook is an enabled
ASYNC pre_start hook whose execution reports failure; `Deploy`
nevertheless succeeds and performs the unit write, so the claim as
stated (over every enabled pre_start hook) is false on the code.  Async
hook outcomes are never collected into the gating set
(config.go lines 339-349). -/
theorem C1_counterexample :
    fx.asyncReq.hooks = [fx.asyncHook] ∧
    fx.asyncHook.enabled = true ∧ fx.asyncHook.type = "pre_start" ∧
    (hooks.ExecuteHook fx.asyncHook fx.asyncReq.service
      (fx.failPreWorld.preRes 0)).event.status = "failure" ∧
    (service.Deploy fx.wd fx.asyncReq fx.failPreWorld).1 = some (.ok ()) ∧
    (service.Deploy fx.wd fx.asyncReq fx.failPreWorld).2.any
      (fun e => service.isWrite e) = true := by
  exact ⟨rfl, rfl, rfl, rfl, rfl, rfl⟩

/-- C2 (amended): in every `Deploy` execution, the pre_start hooks run
BEFORE artifact fetching and extraction (not after, as the spec's state
order claims); the actual order is Validating, Locked, PreHooks,
Fetching/Extracting, ConfigBuilding, Writing, Reloading, Enabling,
Starting, PostHooks.  Stated as trace orderings: every collected
pre_start hook execution precedes every fetch, every fetch precedes the
unit write, the write precedes the reload, the reload precedes enable,
enable precedes start, and start precedes every collected post_start
hook execution. -/
theorem C2_pipeline_order (wd : String) (req : service.DeployRequest)
    (w : service.World) :
    service.allBefore service.isPreHookRun service.isFetch (service.Deploy wd req w).2 ∧
    service.allBefore service.isFetch service.isWrite (service.Deploy wd req w).2 ∧
    service.allBefore service.isWrite service.isReload (service.Deploy wd req w).2 ∧
    service.allBefore service.isReload service.isEnable (service.Deploy wd req w).2 ∧
    service.allBefore service.isEnable service.isStart (service.Deploy wd req w).2 ∧
    service.allBefore service.isStart service.isPostHookRun (service.Deploy wd req w).2 := by
  have hsort := service.Deploy_stage_pairwise wd req w
  have hstagePre : ∀ a, service.isPreHookRun a = true → service.stageOf a = 1 := by
    intro a ha
    cases a <;> simp [service.isPreHookRun] at ha
    simp [service.stageOf, ha]
  have hstagePost : ∀ a, service.isPostHookRun a = true → service.stageOf a = 7 := by
    intro a ha
    cases a <;> simp [service.isPostHookRun] at ha
    simp [service.stageOf, ha]
  have hstageFetch : ∀ a, service.isFetch a = true → service.stageOf a = 2 := by
    intro a ha
    cases a <;> simp [service.isFetch] at ha
    simp [service.stageOf]
  have hstageWrite : ∀ a, service.isWrite a = true → service.stageOf a = 3 := by
    intro a ha
    cases a <;> simp [service.isWrite] at ha
    simp [service.stageOf]
  have hstageReload : ∀ a, service.isReload a = true → service.stageOf a = 4 := by
    intro a ha
    cases a <;> simp [service.isReload] at ha
    simp [service.stageOf]
  have hstageEnable : ∀ a, service.isEnable a = true → service.stageOf a = 5 := by
    intro a ha
    cases a <;> simp [service.isEnable] at ha
    simp [service.stageOf]
  have hstageStart : ∀ a, service.isStart a = true → service.stageOf a = 6 := by
    intro a ha
    cases a <;> simp [service.isStart] at ha
    simp [service.stageOf]
  refine ⟨?_, ?_, ?_, ?_, ?_, ?_⟩ <;>
    apply service.allBefore_of_stage _ hsort
  · intro a b ha hb; rw [hstagePre a ha, hstageFetch b hb]; omega
  · intro a b ha hb; rw [hstageFetch a ha, hstageWrite b hb]; omega
  · intro a b ha hb; rw [hstageWrite a ha, hstageReload b hb]; omega
  · intro a b ha hb; rw [hstageReload a ha, hstageEnable b hb]; omega
  · intro a b ha hb; rw [hstageEnable a ha, hstageStart b hb]; omega
  · intro a b ha hb; rw [hstageStart a ha, hstagePost b hb]; omega

/-- C2 counterexample: a concrete deploy run (one enabled synchronous
pre_start hook, everything succeeding) in which the pre_start hook
execution occurs at trace index 2 and the fetch at index 4; hence the
claimed order (fetching and extraction complete before any pre_start
hook executes) is false on the code. -/
theorem C2_counterexample :
    ¬ service.allBefore service.isFetch service.isPreHookRun
      (service.Deploy fx.wd fx.syncReq fx.okWorld).2 := by
  intro h
  have h42 := h 4 2 (by decide) (by decide) (by rfl) (by rfl)
  omega

/-- C1 witness: a concrete failing synchronous pre_start hook (the
request's only hook), on which the gating theorem applies. -/
theorem C1_pre_start_hook_gates_deploy_witness :
    hooks.syncSelected fx.syncReq.hooks "pre_start" = [(0, fx.syncHook)] ∧
    (hooks.ExecuteHook fx.syncHook fx.syncReq.service
      (fx.failPreWorld.preRes 0)).event.status = "failure" ∧
    (((∃ e, (service.Deploy fx.wd fx.syncReq fx.failPreWorld).1 = some (.error e)) ∧
      ∀ ef ∈ (service.Deploy fx.wd fx.syncReq fx.failPreWorld).2,
        service.isWrite ef = false ∧ service.isReload ef = false ∧
        service.isEnable ef = false ∧ service.isStart ef = false) ∧
     (∀ wd2 : String, ∀ req2 : service.DeployRequest, ∀ w2 : service.World,
       2 ≤ (hooks.syncSelected req2.hooks "pre_start").length →
       validator.ValidateServiceName req2.service = .ok () →
       w2.mkdirServiceDirErr = none → w2.mkdirLogDirErr = none →
       (service.Deploy wd2 req2 w2).1 = none ∧
       ∀ ef ∈ (service.Deploy wd2 req2 w2).2,
         service.isWrite ef = false ∧ service.isReload ef = false ∧
         service.isEnable ef = false ∧ service.isStart ef = false)) :=
  ⟨by decide, rfl,
   C1_pre_start_hook_gates_deploy fx.wd fx.syncReq fx.failPreWorld 0 fx.syncHook
     (by decide) rfl⟩

/-- C5 (amended): post_start hook OUTCOMES never change a completed
`Deploy`'s result, but the NUMBER of enabled synchronous post_start
hooks decides whether `Deploy` completes at all.  With validation,
directory creation, the pre_start phase, URL validation,
fetch/extraction, the unit write and the reload/enable/start calls all
succeeding: if at most one synchronous post_start hook is selected,
`Deploy` returns success whatever the post hook executors report; if two
or more are selected, `Deploy` never returns — the post_start
`ExecuteHooks` call deadlocks after the unit has been started (see
`C5_counterexample`, refuting the original claim that such a run returns
success). -/
theorem C5_post_start_failures_not_gating (wd : String)
    (req : service.DeployRequest) (w : service.World) (folders : List String)
    (hv : validator.ValidateServiceName req.service = .ok ())
    (hm1 : w.mkdirServiceDirErr = none) (hm2 : w.mkdirLogDirErr = none)
    (hpre1 : (hooks.syncSelected req.hooks "pre_start").length ≤ 1)
    (hpre : (service.preEvents req w).find? (fun ev => ev.status == "failure") = none)
    (hurl : artifact.ValidateURL req.packageURL = .ok ())
    (hfetch : w.fetchResult = .ok folders)
    (hfold : artifact.GetFirstFolder folders ≠ "")
    (hw : w.writeErr = none) (hr : w.reloadErr = none)
    (he : w.enableErr = none) (hs : w.startErr = none) :
    ((hooks.syncSelected req.hooks "post_start").length ≤ 1 →
      (service.Deploy wd req w).1 = some (.ok ())) ∧
    (2 ≤ (hooks.syncSelected req.hooks "post_start").length →
      (service.Deploy wd req w).1 = none ∧
      service.Effect.startUnit req.service ∈ (service.Deploy wd req w).2) := by
  have hpc : service.preCall req w = some (service.preEvents req w) :=
    service.preCall_some_of_le_one req w hpre1
  constructor
  · intro hpost
    have hpo : service.postCall req w = some (service.postEvents req w) :=
      service.postCall_some_of_le_one req w hpost
    unfold service.Deploy service.DeployRest
    simp only [hv, hm1, hm2, hpc, hpre, hurl, hfetch, hpo, hw, hr, he, hs, if_neg hfold]
  · intro hpost
    have hpo : service.postCall req w = none :=
      service.postCall_none_of_ge_two req w hpost
    unfold service.Deploy service.DeployRest
    simp only [hv, hm1, hm2, hpc, hpre, hurl, hfetch, hpo, hw, hr, he, hs, if_neg hfold]
    refine ⟨trivial, ?_⟩
    simp

/-- C5 counterexample: a deploy request with TWO enabled synchronous
post_start hooks and every infrastructure step succeeding.  The original
claim says such a run returns success; in fact the post_start
`ExecuteHooks` call deadlocks — `Deploy` never returns (result `none`)
— after the unit has already been enabled and started. -/
theorem C5_counterexample :
    fx.twoPostReq.hooks = [fx.postHook, fx.postHookB] ∧
    (hooks.syncSelected fx.twoPostReq.hooks "post_start").length = 2 ∧
    (service.Deploy fx.wd fx.twoPostReq fx.okWorld).1 = none ∧
    service.Effect.startUnit "demo" ∈
      (service.Deploy fx.wd fx.twoPostReq fx.okWorld).2 := by
  refine ⟨rfl, rfl, rfl, ?_⟩
  decide

/-- C5 witness: a concrete deploy whose only hook is a single post_start
hook whose executor always fails; every infrastructure step succeeds and
`Deploy` still returns success. -/
theorem C5_post_start_failures_not_gating_witness :
    (hooks.ExecuteHook fx.postHook fx.postReq.service
      (fx.failPostWorld.postRes 0)).event.status = "failure" ∧
    validator.ValidateServiceName fx.postReq.service = .ok () ∧
    (((hooks.syncSelected fx.postReq.hooks "post_start").length ≤ 1 →
       (service.Deploy fx.wd fx.postReq fx.failPostWorld).1 = some (.ok ())) ∧
     (2 ≤ (hooks.syncSelected fx.postReq.hooks "post_start").length →
       (service.Deploy fx.wd fx.postReq fx.failPostWorld).1 = none ∧
       service.Effect.startUnit fx.postReq.service ∈
         (service.Deploy fx.wd fx.postReq fx.failPostWorld).2)) := by
  refine ⟨rfl, rfl, ?_⟩
  exact C5_post_start_failures_not_gating fx.wd fx.postReq fx.failPostWorld
    ["app"] rfl rfl rfl (by decide) rfl rfl rfl (by decide) rfl rfl rfl rfl

namespace service

theorem BuildConfig_fields (req : DeployRequest) (sd ld folder : String) :
    (BuildConfig req sd ld folder).serviceName = req.service ∧
    (BuildConfig req sd ld folder).workingDirectory = gopath.join2 sd folder ∧
    (BuildConfig req sd ld folder).execStart =
      gopath.join3 sd folder req.startCommand ∧
    (req.config = none → (BuildConfig req sd ld folder).restartPolicy = "always") := by
  unfold BuildConfig
  cases hcfg : req.config <;> by_cases hh : req.hooks = [] <;>
    simp [hh, hcfg]

end service

/-- C4 (amended): for every successful `Deploy`, the `ServiceConfig`
that gets rendered has `ServiceName` equal to the request's service name
(the caller config is overwritten), `WorkingDirectory` equal to the
WORKSPACE service directory `{workDir}/services/{service}` joined with
the first extracted top-level folder — NOT the request's `path` field,
which the code ignores (see `C4_counterexample`) — and `ExecStart` equal
to that working directory joined with the start command; when the
request carries no config the synthesized config has restart policy
"always".  The trace of the successful run contains the corresponding
unit-file write. -/
theorem C4_rendered_config_fields (wd : String) (req : service.DeployRequest)
    (w : service.World) (folders : List String)
    (hfetch : w.fetchResult = .ok folders)
    (hok : (service.Deploy wd req w).1 = some (.ok ())) :
    (service.BuildConfig req (gopath.join3 wd "services" req.service)
        (gopath.join3 wd "logs" req.service)
        (artifact.GetFirstFolder folders)).serviceName = req.service ∧
    (service.BuildConfig req (gopath.join3 wd "services" req.service)
        (gopath.join3 wd "logs" req.service)
        (artifact.GetFirstFolder folders)).workingDirectory =
      gopath.join2 (gopath.join3 wd "services" req.service)
        (artifact.GetFirstFolder folders) ∧
    (service.BuildConfig req (gopath.join3 wd "services" req.service)
        (gopath.join3 wd "logs" req.service)
        (artifact.GetFirstFolder folders)).execStart =
      gopath.join2
        (service.BuildConfig req (gopath.join3 wd "services" req.service)
          (gopath.join3 wd "logs" req.service)
          (artifact.GetFirstFolder folders)).workingDirectory
        req.startCommand ∧
    (req.config = none →
      (service.BuildConfig req (gopath.join3 wd "services" req.service)
        (gopath.join3 wd "logs" req.service)
        (artifact.GetFirstFolder folders)).restartPolicy = "always") ∧
    (service.Effect.writeUnit ("/etc/systemd/system/" ++ req.service ++ ".service")
        (service.unitContent req (gopath.join3 wd "services" req.service)
          (gopath.join3 wd "logs" req.service)
          (artifact.GetFirstFolder folders))) ∈ (service.Deploy wd req w).2 := by
  obtain ⟨hname, hwd, hexec, hpol⟩ :=
    service.BuildConfig_fields req (gopath.join3 wd "services" req.service)
      (gopath.join3 wd "logs" req.service) (artifact.GetFirstFolder folders)
  refine ⟨hname, hwd, ?_, hpol, ?_⟩
  · rw [hexec, hwd, gopath.join2_join2]
  · -- a successful run reaches the unit write
    rcases service.Deploy_shape wd req w with
      ⟨e, h⟩ | ⟨e, h⟩ | ⟨e, h⟩ | ⟨hpcn, h⟩ | ⟨ev, hf, h⟩ | ⟨hf, h⟩
    · exact absurd hok (by rw [show (service.Deploy wd req w).1 =
        (Prod.fst (service.Deploy wd req w)) from rfl, h]; simp)
    · exact absurd hok (by rw [show (service.Deploy wd req w).1 =
        (Prod.fst (service.Deploy wd req w)) from rfl, h]; simp)
    · exact absurd hok (by rw [show (service.Deploy wd req w).1 =
        (Prod.fst (service.Deploy wd req w)) from rfl, h]; simp)
    · exact absurd hok (by rw [show (service.Deploy wd req w).1 =
        (Prod.fst (service.Deploy wd req w)) from rfl, h]; simp)
    · exact absurd hok (by rw [show (service.Deploy wd req w).1 =
        (Prod.fst (service.Deploy wd req w)) from rfl, h]; simp)
    · rw [show (service.Deploy wd req w).2 =
        (Prod.snd (service.Deploy wd req w)) from rfl, h]
      have hok2 : (service.DeployRest req w (gopath.join3 wd "services" req.service)
          (gopath.join3 wd "logs" req.service)).1 = some (.ok ()) := by
        rw [show (service.Deploy wd req w).1 =
          (Prod.fst (service.Deploy wd req w)) from rfl, h] at hok
        exact hok
      rcases service.DeployRest_shape req w (gopath.join3 wd "services" req.service)
          (gopath.join3 wd "logs" req.service) with
        ⟨e, h2⟩ | ⟨e, h2⟩ | ⟨folders2, e, hfe, hfold2, h2⟩ |
        ⟨folders2, e, hfe, hfold2, h2⟩ | ⟨folders2, e, hfe, hfold2, h2⟩ |
        ⟨folders2, e, hfe, hfold2, h2⟩ |
        ⟨folders2, hfe, hfold2, hw2, hr2, he2, hs2, hpc2, h2⟩ |
        ⟨folders2, hfe, hfold2, hw2, hr2, he2, hs2, h2⟩
      · rw [show (service.DeployRest req w (gopath.join3 wd "services" req.service)
          (gopath.join3 wd "logs" req.service)).1 =
          (Prod.fst (service.DeployRest req w (gopath.join3 wd "services" req.service)
            (gopath.join3 wd "logs" req.service))) from rfl, h2] at hok2
        exact absurd hok2 (by simp)
      · rw [show (service.DeployRest req w (gopath.join3 wd "services" req.service)
          (gopath.join3 wd "logs" req.service)).1 =
          (Prod.fst (service.DeployRest req w (gopath.join3 wd "services" req.service)
            (gopath.join3 wd "logs" req.service))) from rfl, h2] at hok2
        exact absurd hok2 (by simp)
      · rw [show (service.DeployRest req w (gopath.join3 wd "services" req.service)
          (gopath.join3 wd "logs" req.service)).1 =
          (Prod.fst (service.DeployRest req w (gopath.join3 wd "services" req.service)
            (gopath.join3 wd "logs" req.service))) from rfl, h2] at hok2
        exact absurd hok2 (by simp)
      · rw [show (service.DeployRest req w (gopath.join3 wd "services" req.service)
          (gopath.join3 wd "logs" req.service)).1 =
          (Prod.fst (service.DeployRest req w (gopath.join3 wd "services" req.service)
            (gopath.join3 wd "logs" req.service))) from rfl, h2] at hok2
        exact absurd hok2 (by simp)
      · rw [show (service.DeployRest req w (gopath.join3 wd "services" req.service)
          (gopath.join3 wd "logs" req.service)).1 =
          (Prod.fst (service.DeployRest req w (gopath.join3 wd "services" req.service)
            (gopath.join3 wd "logs" req.service))) from rfl, h2] at hok2
        exact absurd hok2 (by simp)
      · rw [show (service.DeployRest req w (gopath.join3 wd "services" req.service)
          (gopath.join3 wd "logs" req.service)).1 =
          (Prod.fst (service.DeployRest req w (gopath.join3 wd "services" req.service)
            (gopath.join3 wd "logs" req.service))) from rfl, h2] at hok2
        exact absurd hok2 (by simp)
      · rw [show (service.DeployRest req w (gopath.join3 wd "services" req.service)
          (gopath.join3 wd "logs" req.service)).1 =
          (Prod.fst (service.DeployRest req w (gopath.join3 wd "services" req.service)
            (gopath.join3 wd "logs" req.service))) from rfl, h2] at hok2
        exact absurd hok2 (by simp)
      · have hfoldeq : folders2 = folders := by
          rw [hfetch] at hfe
          exact (Except.ok.injEq _ _).mp hfe.symm
        subst hfoldeq
        rw [show (service.DeployRest req w (gopath.join3 wd "services" req.service)
          (gopath.join3 wd "logs" req.service)).2 =
          (Prod.snd (service.DeployRest req w (gopath.join3 wd "services" req.service)
            (gopath.join3 wd "logs" req.service))) from rfl, h2]
        simp

/-- C4 witness: concrete successful deploy on which the config-field
theorem applies. -/
theorem C4_rendered_config_fields_witness :
    fx.okWorld.fetchResult = .ok ["app"] ∧
    (service.Deploy fx.wd fx.syncReq fx.okWorld).1 = some (.ok ()) ∧
    ((service.BuildConfig fx.syncReq (gopath.join3 fx.wd "services" fx.syncReq.service)
        (gopath.join3 fx.wd "logs" fx.syncReq.service)
        (artifact.GetFirstFolder ["app"])).serviceName = fx.syncReq.service ∧
      (service.BuildConfig fx.syncReq (gopath.join3 fx.wd "services" fx.syncReq.service)
        (gopath.join3 fx.wd "logs" fx.syncReq.service)
        (artifact.GetFirstFolder ["app"])).workingDirectory =
        gopath.join2 (gopath.join3 fx.wd "services" fx.syncReq.service)
          (artifact.GetFirstFolder ["app"]) ∧
      (service.BuildConfig fx.syncReq (gopath.join3 fx.wd "services" fx.syncReq.service)
        (gopath.join3 fx.wd "logs" fx.syncReq.service)
        (artifact.GetFirstFolder ["app"])).execStart =
        gopath.join2
          (service.BuildConfig fx.syncReq (gopath.join3 fx.wd "services" fx.syncReq.service)
            (gopath.join3 fx.wd "logs" fx.syncReq.service)
            (artifact.GetFirstFolder ["app"])).workingDirectory
          fx.syncReq.startCommand ∧
      (fx.syncReq.config = none →
        (service.BuildConfig fx.syncReq (gopath.join3 fx.wd "services" fx.syncReq.service)
          (gopath.join3 fx.wd "logs" fx.syncReq.service)
          (artifact.GetFirstFolder ["app"])).restartPolicy = "always") ∧
      (service.Effect.writeUnit
          ("/etc/systemd/system/" ++ fx.syncReq.service ++ ".service")
          (service.unitContent fx.syncReq (gopath.join3 fx.wd "services" fx.syncReq.service)
            (gopath.join3 fx.wd "logs" fx.syncReq.service)
            (artifact.GetFirstFolder ["app"]))) ∈
        (service.Deploy fx.wd fx.syncReq fx.okWorld).2) := by
  refine ⟨rfl, rfl, ?_⟩
  exact C4_rendered_config_fields fx.wd fx.syncReq fx.okWorld ["app"] rfl rfl

/-- C4 counterexample: the current `Deploy` (service.go lines 103-178)
derives the working directory from the workspace service directory
`{workDir}/services/{service}` and ignores the request's `path` field,
so for a request with path "/custom/path" the rendered working directory
is "/opt/api-systemd/services/demo/app", not "/custom/path/app" as the
claim states.  (The stale copy of `Deploy` in part_002 lines 296-312 did
use `params.Path`.) -/
theorem C4_counterexample :
    (service.Deploy fx.wd fx.syncReq fx.okWorld).1 = some (.ok ()) ∧
    fx.syncReq.path = "/custom/path" ∧
    (service.BuildConfig fx.syncReq (gopath.join3 fx.wd "services" fx.syncReq.service)
      (gopath.join3 fx.wd "logs" fx.syncReq.service) "app").workingDirectory =
      "/opt/api-systemd/services/demo/app" ∧
    gopath.join2 fx.syncReq.path "app" = "/custom/path/app" ∧
    (service.BuildConfig fx.syncReq (gopath.join3 fx.wd "services" fx.syncReq.service)
      (gopath.join3 fx.wd "logs" fx.syncReq.service) "app").workingDirectory ≠
      gopath.join2 fx.syncReq.path "app" := by
  exact ⟨rfl, rfl, rfl, rfl, by decide⟩

/-- C3: for every hook that dispatches to an executor, `ExecuteHook`
makes between 1 and `max(retry, 1)` attempts, sleeps `i` seconds before
the (i+1)-th attempt (the sleep list is `[1, 2, ..., attempts-1]`,
linear not exponential), stops at the first successful attempt (every
attempt before the last fails), and returns exactly one terminal event:
"success" when the final attempt succeeded, otherwise "failure" with the
error of the last attempt after exhausting all `max(retry, 1)`
attempts. -/
theorem C3_hook_retry_policy (h : hooks.Hook) (sname : String)
    (res : hooks.AttemptOracle) (hex : hooks.hasExecutor h = true) :
    (1 ≤ (hooks.ExecuteHook h sname res).attempts ∧
      (hooks.ExecuteHook h sname res).attempts ≤ (max h.retry 1).toNat) ∧
    (hooks.ExecuteHook h sname res).sleeps =
      (List.range (hooks.ExecuteHook h sname res).attempts).drop 1 ∧
    (∀ j, j + 1 < (hooks.ExecuteHook h sname res).attempts → res j ≠ none) ∧
    (res ((hooks.ExecuteHook h sname res).attempts - 1) = none →
      (hooks.ExecuteHook h sname res).event = ⟨sname, h.type, "success", ""⟩) ∧
    (∀ e, res ((hooks.ExecuteHook h sname res).attempts - 1) = some e →
      (hooks.ExecuteHook h sname res).event = ⟨sname, h.type, "failure", e⟩ ∧
      (hooks.ExecuteHook h sname res).attempts = (max h.retry 1).toNat) := by
  have hmax : 1 ≤ hooks.maxRetries h := by
    unfold hooks.maxRetries
    split
    · exact le_refl 1
    · rename_i hr
      omega
  obtain ⟨⟨hat1, hat2⟩, hsl, hfail, hlast, hexh⟩ :=
    hooks.attemptLoop_spec res (hooks.maxRetries h) 0 hmax
  simp only [Nat.zero_add] at hfail hlast
  have hunfold : hooks.ExecuteHook h sname res =
      (match (hooks.attemptLoop res 0 (hooks.maxRetries h)).lastErr with
       | none =>
         ⟨⟨sname, h.type, "success", ""⟩,
          (hooks.attemptLoop res 0 (hooks.maxRetries h)).attempts,
          (hooks.attemptLoop res 0 (hooks.maxRetries h)).sleeps⟩
       | some e =>
         ⟨⟨sname, h.type, "failure", e⟩,
          (hooks.attemptLoop res 0 (hooks.maxRetries h)).attempts,
          (hooks.attemptLoop res 0 (hooks.maxRetries h)).sleeps⟩) := by
    unfold hooks.ExecuteHook
    rw [if_pos hex]
  have hattempts : (hooks.ExecuteHook h sname res).attempts =
      (hooks.attemptLoop res 0 (hooks.maxRetries h)).attempts := by
    rw [hunfold]
    cases (hooks.attemptLoop res 0 (hooks.maxRetries h)).lastErr <;> rfl
  have hsleeps : (hooks.ExecuteHook h sname res).sleeps =
      (hooks.attemptLoop res 0 (hooks.maxRetries h)).sleeps := by
    rw [hunfold]
    cases (hooks.attemptLoop res 0 (hooks.maxRetries h)).lastErr <;> rfl
  refine ⟨⟨?_, ?_⟩, ?_, ?_, ?_, ?_⟩
  · rw [hattempts]; exact hat1
  · rw [hattempts, ← hooks.maxRetries_eq_max]; exact hat2
  · rw [hsleeps, hattempts, hsl]
    simp only [reduceIte]
    rw [hooks.range_drop_one _ hat1]
  · intro j hj
    rw [hattempts] at hj
    exact hfail j hj
  · intro hnone
    rw [hattempts] at hnone
    have hle : (hooks.attemptLoop res 0 (hooks.maxRetries h)).lastErr = none := by
      rw [hlast]; exact hnone
    rw [hunfold, hle]
  · intro e hsome
    rw [hattempts] at hsome
    have hle : (hooks.attemptLoop res 0 (hooks.maxRetries h)).lastErr = some e := by
      rw [hlast]; exact hsome
    constructor
    · rw [hunfold, hle]
    · rw [hattempts, ← hooks.maxRetries_eq_max]
      exact hexh (by rw [hle]; simp)

/-- C3 witness: a command hook with retry 3 whose executor fails twice
then succeeds: 3 attempts, sleeps [1, 2], final event "success"; the
retry theorem applies to it. -/
theorem C3_hook_retry_policy_witness :
    hooks.hasExecutor fx.retryHook = true ∧
    (hooks.ExecuteHook fx.retryHook "demo" fx.lateRes).attempts = 3 ∧
    (hooks.ExecuteHook fx.retryHook "demo" fx.lateRes).sleeps = [1, 2] ∧
    (hooks.ExecuteHook fx.retryHook "demo" fx.lateRes).event.status = "success" ∧
    ((1 ≤ (hooks.ExecuteHook fx.retryHook "demo" fx.lateRes).attempts ∧
      (hooks.ExecuteHook fx.retryHook "demo" fx.lateRes).attempts ≤
        (max fx.retryHook.retry 1).toNat) ∧
     (hooks.ExecuteHook fx.retryHook "demo" fx.lateRes).sleeps =
       (List.range (hooks.ExecuteHook fx.retryHook "demo" fx.lateRes).attempts).drop 1 ∧
     (∀ j, j + 1 < (hooks.ExecuteHook fx.retryHook "demo" fx.lateRes).attempts →
       fx.lateRes j ≠ none) ∧
     (fx.lateRes ((hooks.ExecuteHook fx.retryHook "demo" fx.lateRes).attempts - 1) = none →
       (hooks.ExecuteHook fx.retryHook "demo" fx.lateRes).event =
         ⟨"demo", fx.retryHook.type, "success", ""⟩) ∧
     (∀ e, fx.lateRes ((hooks.ExecuteHook fx.retryHook "demo" fx.lateRes).attempts - 1) = some e →
       (hooks.ExecuteHook fx.retryHook "demo" fx.lateRes).event =
         ⟨"demo", fx.retryHook.type, "failure", e⟩ ∧
       (hooks.ExecuteHook fx.retryHook "demo" fx.lateRes).attempts =
         (max fx.retryHook.retry 1).toNat)) := by
  exact ⟨rfl, rfl, rfl, rfl, C3_hook_retry_policy fx.retryHook "demo" fx.lateRes rfl⟩

/-- C6 (amended): a hook whose command, script path and callback URL are
all empty never dispatches to any executor — its result is independent
of every executor outcome — but the engine does NOT skip it: it makes
one loop iteration, sleeps never, and returns a `HookEvent` whose status
is the empty string (neither "success" nor "failure"); when the hook is
enabled, synchronous and phase-matching, that event IS recorded in the
phase's collected event set (the original "no recorded event" claim is
refuted by `C6_counterexample`).  The empty status never gates a
deployment because the gate only checks for "failure". -/
theorem C6_empty_hook_behavior (h : hooks.Hook) (sname phase : String)
    (res res2 : hooks.AttemptOracle) (pres : hooks.PhaseOracle)
    (hc : h.command = "") (hs : h.script = "") (hcb : h.callbackURL = "") :
    hooks.ExecuteHook h sname res =
      ⟨⟨sname, h.type, "", ""⟩, 1, []⟩ ∧
    hooks.ExecuteHook h sname res = hooks.ExecuteHook h sname res2 ∧
    (h.enabled = true → h.async = false → h.type = phase →
      hooks.ExecuteHooks [h] phase sname pres = some [⟨sname, h.type, "", ""⟩]) := by
  have hex : hooks.hasExecutor h = false := by
    simp [hooks.hasExecutor, hc, hs, hcb]
  have h1 : ∀ r : hooks.AttemptOracle, hooks.ExecuteHook h sname r =
      ⟨⟨sname, h.type, "", ""⟩, 1, []⟩ := by
    intro r
    unfold hooks.ExecuteHook
    rw [if_neg (by rw [hex]; simp)]
  refine ⟨h1 res, (h1 res).trans (h1 res2).symm, ?_⟩
  intro hen hasync htype
  have hsel : hooks.syncSelected [h] phase = [(0, h)] := by
    unfold hooks.syncSelected
    simp [List.enum, hen, hasync, htype]
  unfold hooks.ExecuteHooks
  rw [hsel]
  simp [h1 (pres 0)]

/-- C6 counterexample: a concrete enabled synchronous hook with empty
command, script and callback, submitted for its phase: `ExecuteHooks`
records one `HookEvent` for it (with empty status) in the collected
event set, so the claim that such a hook contributes no event to the
set is false on the code. -/
theorem C6_counterexample :
    fx.emptyHook.command = "" ∧ fx.emptyHook.script = "" ∧
    fx.emptyHook.callbackURL = "" ∧ fx.emptyHook.enabled = true ∧
    Option.map List.length (hooks.ExecuteHooks [fx.emptyHook] "pre_start" "svc"
      (fun _ => fun _ => none)) = some 1 ∧
    hooks.ExecuteHooks [fx.emptyHook] "pre_start" "svc"
      (fun _ => fun _ => none) = some [⟨"svc", "pre_start", "", ""⟩] := by
  exact ⟨rfl, rfl, rfl, rfl, rfl, rfl⟩

/-- C6 witness: the empty-hook theorem applied at a concrete hook. -/
theorem C6_empty_hook_behavior_witness :
    fx.emptyHook.command = "" ∧
    (hooks.ExecuteHook fx.emptyHook "svc" fx.failRes =
      ⟨⟨"svc", fx.emptyHook.type, "", ""⟩, 1, []⟩ ∧
     hooks.ExecuteHook fx.emptyHook "svc" fx.failRes =
       hooks.ExecuteHook fx.emptyHook "svc" fx.lateRes ∧
     (fx.emptyHook.enabled = true → fx.emptyHook.async = false →
       fx.emptyHook.type = "pre_start" →
       hooks.ExecuteHooks [fx.emptyHook] "pre_start" "svc" (fun _ => fx.failRes) =
         some [⟨"svc", fx.emptyHook.type, "", ""⟩])) :=
  ⟨rfl, C6_empty_hook_behavior fx.emptyHook "svc" "pre_start" fx.failRes fx.lateRes
    (fun _ => fx.failRes) rfl rfl rfl⟩

/-- C7: the unit-file renderer is a deterministic pure function of the
`ServiceConfig` value: its output depends on the environment map only
through the sorted entry set, so rendering the same config twice — even
with the environment map represented in two different orders — yields
byte-identical output.  (`text/template` visits map keys in sorted
order; key uniqueness is the invariant the caller guarantees.) -/
theorem C7_render_deterministic (sc : service.SystemdConfig)
    (e1 e2 : List (String × String)) (hperm : List.Perm e1 e2)
    (hkeys : (e1.map Prod.fst).Nodup) :
    service.render { sc with config := { sc.config with environment := e1 } } =
    service.render { sc with config := { sc.config with environment := e2 } } := by
  have hsort := service.sortEnv_eq_of_perm e1 e2 hperm hkeys
  unfold service.render
  simp only [hsort]

/-- C7 witness: two orderings of the same two-entry environment render
to the same unit file. -/
theorem C7_render_deterministic_witness :
    List.Perm [("B", "2"), ("A", "1")] [("A", "1"), ("B", "2")] ∧
    (([("B", "2"), ("A", "1")].map (Prod.fst (β := String))).Nodup) ∧
    service.render { service.NewSystemdConfig "demo" "/opt/x" "run.sh" none with
      config := { (service.NewSystemdConfig "demo" "/opt/x" "run.sh" none).config with
        environment := [("B", "2"), ("A", "1")] } } =
    service.render { service.NewSystemdConfig "demo" "/opt/x" "run.sh" none with
      config := { (service.NewSystemdConfig "demo" "/opt/x" "run.sh" none).config with
        environment := [("A", "1"), ("B", "2")] } } := by
  refine ⟨by decide, by decide, ?_⟩
  exact C7_render_deterministic (service.NewSystemdConfig "demo" "/opt/x" "run.sh" none)
    [("B", "2"), ("A", "1")] [("A", "1"), ("B", "2")] (by decide) (by decide)

/-- C9 (amended): `ValidateURL` succeeds exactly when the URL starts
with "http://" or "https://" and CONTAINS one of ".zip", ".tar.gz" or
".tar" as a substring anywhere — the code (artifact.go lines 123-135)
uses `strings.Contains`, not a suffix check, so URLs that merely contain
an extension (for example "http://x/app.zip.exe") are also accepted; see
`C9_counterexample`. -/
theorem C9_validate_url_spec (url : String) :
    artifact.ValidateURL url = .ok () ↔
      ((artifact.strStartsWith url "http://" = true ∨
        artifact.strStartsWith url "https://" = true) ∧
       (artifact.strContains url ".zip" = true ∨
        artifact.strContains url ".tar.gz" = true ∨
        artifact.strContains url ".tar" = true)) := by
  by_cases hempty : url = ""
  · subst hempty
    simp [artifact.ValidateURL]
    decide
  · cases h1 : artifact.strStartsWith url "http://" <;>
    cases h2 : artifact.strStartsWith url "https://" <;>
    cases h3 : artifact.strContains url ".zip" <;>
    cases h4 : artifact.strContains url ".tar.gz" <;>
    cases h5 : artifact.strContains url ".tar" <;>
    simp [artifact.ValidateURL, hempty, h1, h2, h3, h4, h5]

/-- C9 counterexample: "http://x/app.zip.exe" does not END in any
supported extension, yet `ValidateURL` accepts it, so the claim's
"ends in" criterion is false on the code. -/
theorem C9_counterexample :
    artifact.ValidateURL "http://x/app.zip.exe" = .ok () ∧
    artifact.strEndsWith "http://x/app.zip.exe" ".zip" = false ∧
    artifact.strEndsWith "http://x/app.zip.exe" ".tar.gz" = false ∧
    artifact.strEndsWith "http://x/app.zip.exe" ".tar" = false := by
  exact ⟨rfl, rfl, rfl, rfl⟩

/-- C10: `Remove` is not atomic: when the service name is valid, the
stop and disable calls succeed, and deleting the unit file fails (for
example because the file does not exist), `Remove` returns an error
while the already-performed stop and disable remain in the trace and no
rollback call (no enable, no start) follows: the trace is exactly stop,
disable, failed file removal. -/
theorem C10_remove_not_atomic (name : String) (w : service.RemoveWorld) (e : String)
    (hv : validator.ValidateServiceName name = .ok ())
    (hstop : w.stopErr = none) (hdis : w.disableErr = none)
    (hrm : w.removeFileErr = some e) :
    (service.Remove name w).1 =
      .error ("failed to remove systemd service file: " ++ e) ∧
    (service.Remove name w).2 =
      [.stopUnit name, .disableUnit name,
       .removeFile ("/etc/systemd/system/" ++ name ++ ".service")] ∧
    ∀ ef ∈ (service.Remove name w).2,
      service.isEnable ef = false ∧ service.isStart ef = false := by
  have hR : service.Remove name w =
      (.error ("failed to remove systemd service file: " ++ e),
       [.stopUnit name, .disableUnit name,
        .removeFile ("/etc/systemd/system/" ++ name ++ ".service")]) := by
    unfold service.Remove
    simp only [hv, hstop, hdis, hrm]
  refine ⟨by rw [show (service.Remove name w).1 = (Prod.fst (service.Remove name w)) from rfl, hR],
    by rw [show (service.Remove name w).2 = (Prod.snd (service.Remove name w)) from rfl, hR], ?_⟩
  rw [show (service.Remove name w).2 = (Prod.snd (service.Remove name w)) from rfl, hR]
  intro ef hef
  rcases List.mem_cons.mp hef with rfl | hef2
  · exact ⟨rfl, rfl⟩
  · rcases List.mem_cons.mp hef2 with rfl | hef3
    · exact ⟨rfl, rfl⟩
    · rcases List.mem_singleton.mp hef3 with rfl
      exact ⟨rfl, rfl⟩

/-- C10 witness: removing "demo" when the unit file is missing. -/
theorem C10_remove_not_atomic_witness :
    validator.ValidateServiceName "demo" = .ok () ∧
    ((service.Remove "demo" fx.removeFailWorld).1 =
      .error ("failed to remove systemd service file: " ++ "no such file or directory") ∧
     (service.Remove "demo" fx.removeFailWorld).2 =
      [.stopUnit "demo", .disableUnit "demo",
       .removeFile ("/etc/systemd/system/" ++ "demo" ++ ".service")] ∧
     ∀ ef ∈ (service.Remove "demo" fx.removeFailWorld).2,
       service.isEnable ef = false ∧ service.isStart ef = false) :=
  ⟨rfl, C10_remove_not_atomic "demo" fx.removeFailWorld
    "no such file or directory" rfl rfl rfl rfl⟩

/-- C8: one process-wide read/write lock serializes every `Deploy`
against every other `Deploy` and against `ListServices`, regardless of
service names. (a) `Deploy` takes the exclusive lock right after name
validation and holds it through the whole pipeline; (b) `ListServices`
takes the shared lock around its unit enumeration; (c) `Start`, `Stop`,
`Restart` and `Remove` never touch the lock; (d) every complete
interleaving of two `Deploy` calls runs one entire script before the
other, so their fetch and write phases never overlap; (e) the same for a
`Deploy` and a `ListServices`. -/
theorem C8_lock_serialization (workDir : String)
    (req0 req1 : service.DeployRequest) (w0 w1 : service.World)
    (n : String) (e e2 : Option String) (rw : service.RemoveWorld)
    (h0 : validator.ValidateServiceName req0.service = .ok ())
    (h1 : validator.ValidateServiceName req1.service = .ok ()) :
    service.DeployActs workDir req0 w0 =
      .lockW :: ((service.Deploy workDir req0 w0).2.map .work ++ [.unlockW]) ∧
    service.ListServicesActs = [.lockR, .work .listUnits, .unlockR] ∧
    (∀ a ∈ service.StartActs n e, locking.isLockAct a = false) ∧
    (∀ a ∈ service.StopActs n e e2, locking.isLockAct a = false) ∧
    (∀ a ∈ service.RestartActs n e, locking.isLockAct a = false) ∧
    (∀ a ∈ service.RemoveActs n rw, locking.isLockAct a = false) ∧
    (∀ c : locking.Cfg,
      locking.Reach ⟨0, none, service.DeployActs workDir req0 w0,
        service.DeployActs workDir req1 w1, []⟩ c →
      c.rem0 = [] → c.rem1 = [] →
      c.hist = locking.tag false (service.DeployActs workDir req0 w0) ++
               locking.tag true (service.DeployActs workDir req1 w1) ∨
      c.hist = locking.tag true (service.DeployActs workDir req1 w1) ++
               locking.tag false (service.DeployActs workDir req0 w0)) ∧
    (∀ c : locking.Cfg,
      locking.Reach ⟨0, none, service.DeployActs workDir req0 w0,
        service.ListServicesActs, []⟩ c →
      c.rem0 = [] → c.rem1 = [] →
      c.hist = locking.tag false (service.DeployActs workDir req0 w0) ++
               locking.tag true service.ListServicesActs ∨
      c.hist = locking.tag true service.ListServicesActs ++
               locking.tag false (service.DeployActs workDir req0 w0)) := by
  have hwork : ∀ (tr : List service.Effect),
      ∀ a ∈ tr.map locking.LockAct.work, locking.isLockAct a = false := by
    intro tr a ha
    obtain ⟨ef, _, rfl⟩ := List.mem_map.mp ha
    rfl
  have ha0 : service.DeployActs workDir req0 w0 =
      locking.cs true ((service.Deploy workDir req0 w0).2.map .work) := by
    simp only [service.DeployActs, h0]
    rfl
  have ha1 : service.DeployActs workDir req1 w1 =
      locking.cs true ((service.Deploy workDir req1 w1).2.map .work) := by
    simp only [service.DeployActs, h1]
    rfl
  have hls : service.ListServicesActs =
      locking.cs false ([service.Effect.listUnits].map locking.LockAct.work) := rfl
  refine ⟨by rw [ha0]; rfl, rfl, ?_, ?_, ?_, ?_, ?_, ?_⟩
  · intro a ha
    unfold service.StartActs at ha
    exact hwork _ a ha
  · intro a ha
    unfold service.StopActs at ha
    exact hwork _ a ha
  · intro a ha
    unfold service.RestartActs at ha
    exact hwork _ a ha
  · intro a ha
    unfold service.RemoveActs at ha
    exact hwork _ a ha
  · intro c hr hc0 hc1
    rw [ha0, ha1] at hr
    rw [ha0, ha1]
    exact locking.serialized (Or.inl rfl) (hwork _) (hwork _) hr hc0 hc1
  · intro c hr hc0 hc1
    rw [ha0, hls] at hr
    rw [ha0, hls]
    exact locking.serialized (Or.inl rfl) (hwork _) (hwork _) hr hc0 hc1

/-- C8 witness: two concrete deployment requests ("demo" and "other")
against the fixture world, plus the lock-free service operations. -/
theorem C8_lock_serialization_witness :
    validator.ValidateServiceName fx.syncReq.service = .ok () ∧
    validator.ValidateServiceName fx.otherReq.service = .ok () ∧
    (service.DeployActs fx.wd fx.syncReq fx.okWorld =
      .lockW :: ((service.Deploy fx.wd fx.syncReq fx.okWorld).2.map .work ++ [.unlockW]) ∧
    service.ListServicesActs = [.lockR, .work .listUnits, .unlockR] ∧
    (∀ a ∈ service.StartActs "demo" none, locking.isLockAct a = false) ∧
    (∀ a ∈ service.StopActs "demo" none none, locking.isLockAct a = false) ∧
    (∀ a ∈ service.RestartActs "demo" none, locking.isLockAct a = false) ∧
    (∀ a ∈ service.RemoveActs "demo" fx.removeFailWorld, locking.isLockAct a = false) ∧
    (∀ c : locking.Cfg,
      locking.Reach ⟨0, none, service.DeployActs fx.wd fx.syncReq fx.okWorld,
        service.DeployActs fx.wd fx.otherReq fx.okWorld, []⟩ c →
      c.rem0 = [] → c.rem1 = [] →
      c.hist = locking.tag false (service.DeployActs fx.wd fx.syncReq fx.okWorld) ++
               locking.tag true (service.DeployActs fx.wd fx.otherReq fx.okWorld) ∨
      c.hist = locking.tag true (service.DeployActs fx.wd fx.otherReq fx.okWorld) ++
               locking.tag false (service.DeployActs fx.wd fx.syncReq fx.okWorld)) ∧
    (∀ c : locking.Cfg,
      locking.Reach ⟨0, none, service.DeployActs fx.wd fx.syncReq fx.okWorld,
        service.ListServicesActs, []⟩ c →
      c.rem0 = [] → c.rem1 = [] →
      c.hist = locking.tag false (service.DeployActs fx.wd fx.syncReq fx.okWorld) ++
               locking.tag true service.ListServicesActs ∨
      c.hist = locking.tag true service.ListServicesActs ++
               locking.tag false (service.DeployActs fx.wd fx.syncReq fx.okWorld))) :=
  ⟨rfl, rfl, C8_lock_serialization fx.wd fx.syncReq fx.otherReq fx.okWorld fx.okWorld
    "demo" none none fx.removeFailWorld rfl rfl⟩
